import Mathlib

/-!
Verification of pixl-server-pool against its natural-language specification.

The JavaScript sources are shallowly embedded: JS strings become `List Char`
or `String`, JS objects become structures, JS `{}`-maps keyed by pid or
request id become insertion-ordered association lists (mirroring JS object
key insertion order), machine numbers become `Nat` (all the counters involved
are nonnegative integers in every reachable state), and asynchronous
callbacks / emitted events become explicit `Output` values returned by the
embedded operations.
-/

namespace PixlPool

/-! ## Manager id generator (src/main.js, `getUniqueID`, lines 137-150)

JS source:
```
_uniqueIDCounter: 0,
getUniqueID: function(prefix) {
  this._uniqueIDCounter++;
  if (this._uniqueIDCounter >= Math.pow(36, 2)) this._uniqueIDCounter = 0;
  return [
    prefix,
    Tools.zeroPad( (new Date()).getTime().toString(36), 8 ),
    Tools.zeroPad( this._uniqueIDCounter.toString(36), 2 )
  ].join('');
}
```
-/

/-- Lowercase base-36 digit character, as produced by JS `Number.toString(36)`:
digits `0`-`9` then `a`-`z`. -/
def b36digit (n : Nat) : Char :=
  if n < 10 then Char.ofNat (48 + n) else Char.ofNat (87 + n)

/-- Base-36 representation of a natural number as a list of characters,
most significant digit first; `toB36 0 = ['0']`.  Mirrors JS
`Number.prototype.toString(36)` for nonnegative integers. -/
def toB36 (n : Nat) : List Char :=
  if h : n < 36 then [b36digit n]
  else toB36 (n / 36) ++ [b36digit (n % 36)]
  decreasing_by
    apply Nat.div_lt_self
    · omega
    · omega

/-- Modelled from the spec: `Tools.zeroPad` of the external pixl-tools library
(not part of this repository), which left-pads a string with `'0'` characters
up to the requested length. -/
def zeroPad (s : List Char) (len : Nat) : List Char :=
  List.replicate (len - s.length) '0' ++ s

/-- The counter update performed by `getUniqueID`: increment, then wrap to 0
once the value reaches `36^2`. -/
def nextCounter (c : Nat) : Nat :=
  if c + 1 ≥ 36 ^ 2 then 0 else c + 1

/-- `getUniqueID` as a pure state-passing function: given the prefix, the
current millisecond timestamp, and the current `_uniqueIDCounter` value,
return the generated id and the new counter value.  The returned id uses the
post-increment (post-wrap) counter, exactly as the JS source does. -/
def getUniqueID (pre : List Char) (nowMs : Nat) (c : Nat) : List Char × Nat :=
  let c2 := nextCounter c
  (pre ++ zeroPad (toB36 nowMs) 8 ++ zeroPad (toB36 c2) 2, c2)

/-- Counter state after `k` consecutive `getUniqueID` calls starting from
counter state `c0`. -/
def counterAfter (c0 : Nat) : Nat → Nat
  | 0 => c0
  | k + 1 => nextCounter (counterAfter c0 k)

/-- The id returned by the `k`-th (0-indexed) of a run of consecutive
`getUniqueID` calls that all happen with the same prefix and within the same
millisecond, starting from counter state `c0`. -/
def nthCallId (pre : List Char) (nowMs : Nat) (c0 k : Nat) : List Char :=
  (getUniqueID pre nowMs (counterAfter c0 k)).1

theorem nextCounter_lt (c : Nat) : nextCounter c < 36 ^ 2 := by
  unfold nextCounter
  split <;> omega

theorem nextCounter_eq_mod (c : Nat) (h : c < 36 ^ 2) :
    nextCounter c = (c + 1) % 36 ^ 2 := by
  unfold nextCounter
  split
  · have : c + 1 = 36 ^ 2 := by norm_num at h ⊢; omega
    rw [this]
    simp
  · rw [Nat.mod_eq_of_lt]
    omega

theorem counterAfter_eq_mod (c0 : Nat) (h : c0 < 36 ^ 2) (k : Nat) :
    counterAfter c0 k = (c0 + k) % 36 ^ 2 := by
  induction k with
  | zero =>
    have h36 : c0 < 1296 := by norm_num at h; omega
    simp [counterAfter, Nat.mod_eq_of_lt h36]
  | succ k ih =>
    have hlt : counterAfter c0 k < 36 ^ 2 := by
      rw [ih]
      exact Nat.mod_lt _ (by norm_num)
    rw [counterAfter, nextCounter_eq_mod _ hlt, ih, Nat.mod_add_mod,
      Nat.add_assoc]

theorem b36digit_inj_fin : ∀ a b : Fin 36, b36digit a.val = b36digit b.val → a = b := by
  decide

theorem b36digit_inj (a b : Nat) (ha : a < 36) (hb : b < 36)
    (h : b36digit a = b36digit b) : a = b := by
  have := b36digit_inj_fin ⟨a, ha⟩ ⟨b, hb⟩ h
  simpa using congrArg Fin.val this

theorem toB36_small (n : Nat) (h : n < 36) : toB36 n = [b36digit n] := by
  rw [toB36]
  simp [h]

/-- For counter values below `36^2`, the padded base-36 string is exactly the
two digit characters. -/
theorem zeroPad_toB36_two (n : Nat) (h : n < 36 ^ 2) :
    zeroPad (toB36 n) 2 = [b36digit (n / 36), b36digit (n % 36)] := by
  by_cases hs : n < 36
  · rw [toB36_small n hs]
    have h0 : n / 36 = 0 := Nat.div_eq_of_lt hs
    have hm : n % 36 = n := Nat.mod_eq_of_lt hs
    simp [zeroPad, h0, hm, List.replicate]
    rfl
  · rw [toB36]
    have hd : n / 36 < 36 := by
      apply Nat.div_lt_of_lt_mul
      norm_num at h ⊢
      omega
    rw [dif_neg hs, toB36_small _ hd]
    simp [zeroPad]

theorem zeroPad_toB36_two_inj (a b : Nat) (ha : a < 36 ^ 2) (hb : b < 36 ^ 2)
    (h : zeroPad (toB36 a) 2 = zeroPad (toB36 b) 2) : a = b := by
  rw [zeroPad_toB36_two a ha, zeroPad_toB36_two b hb] at h
  have h1 : b36digit (a / 36) = b36digit (b / 36) := by
    simpa using congrArg (fun l => l.headI) h
  have h2 : b36digit (a % 36) = b36digit (b % 36) := by
    simpa using congrArg (fun l => l.getLastI) h
  have e1 : a / 36 = b / 36 := by
    apply b36digit_inj _ _ _ _ h1
    · apply Nat.div_lt_of_lt_mul
      norm_num at ha ⊢
      omega
    · apply Nat.div_lt_of_lt_mul
      norm_num at hb ⊢
      omega
  have e2 : a % 36 = b % 36 :=
    b36digit_inj _ _ (Nat.mod_lt _ (by norm_num)) (Nat.mod_lt _ (by norm_num)) h2
  omega

/-- C9: the id generator returns prefix ++ padded base-36 timestamp ++ padded
base-36 counter, the counter stays in `[0, 36^2)`, and calls within one
millisecond return pairwise distinct ids as long as fewer than `36^2` calls
happen in that millisecond. -/
theorem getUniqueID_spec (pre : List Char) (nowMs : Nat) (c0 : Nat)
    (hc0 : c0 < 36 ^ 2) :
    (getUniqueID pre nowMs c0).1 =
      pre ++ zeroPad (toB36 nowMs) 8 ++ zeroPad (toB36 (getUniqueID pre nowMs c0).2) 2
    ∧ (getUniqueID pre nowMs c0).2 < 36 ^ 2
    ∧ ∀ i j, i < 36 ^ 2 → j < 36 ^ 2 → i ≠ j →
        nthCallId pre nowMs c0 i ≠ nthCallId pre nowMs c0 j := by
  refine ⟨rfl, nextCounter_lt c0, ?_⟩
  intro i j hi hj hij heq
  unfold nthCallId getUniqueID at heq
  simp only at heq
  have heq2 : zeroPad (toB36 (nextCounter (counterAfter c0 i))) 2 =
      zeroPad (toB36 (nextCounter (counterAfter c0 j))) 2 :=
    @List.append_cancel_left Char (pre ++ zeroPad (toB36 nowMs) 8) _ _ heq
  have e := zeroPad_toB36_two_inj _ _ (nextCounter_lt _) (nextCounter_lt _) heq2
  have ei : counterAfter c0 i < 36 ^ 2 := by
    rw [counterAfter_eq_mod c0 hc0]
    exact Nat.mod_lt _ (by norm_num)
  have ej : counterAfter c0 j < 36 ^ 2 := by
    rw [counterAfter_eq_mod c0 hc0]
    exact Nat.mod_lt _ (by norm_num)
  rw [nextCounter_eq_mod _ ei, nextCounter_eq_mod _ ej,
    counterAfter_eq_mod c0 hc0, counterAfter_eq_mod c0 hc0,
    Nat.mod_add_mod, Nat.mod_add_mod] at e
  have : (c0 + i + 1) % 36 ^ 2 = (c0 + j + 1) % 36 ^ 2 := e
  norm_num at this hi hj
  omega

/-- Witness for `getUniqueID_spec` at concrete inputs. -/
theorem getUniqueID_spec_witness :
    (getUniqueID ['r'] 1700000000000 0).2 < 36 ^ 2
    ∧ nthCallId ['r'] 1700000000000 0 0 ≠ nthCallId ['r'] 1700000000000 0 1 := by
  have h := getUniqueID_spec ['r'] 1700000000000 0 (by norm_num)
  exact ⟨h.2.1, h.2.2 0 1 (by norm_num) (by norm_num) (by norm_num)⟩

/-! ## Data model (src/worker_proxy.js, src/worker_pool.js)

Worker states, pool configuration, pending-request table entries, and the
worker-proxy structure.  JS `{}`-maps become insertion-ordered association
lists; `this.requests[id] = ...` / `delete this.requests[id]` become `aset` /
`aerase`; timer handles become `Bool` flags meaning "armed" (a fired or
cleared timer cannot fire again).
-/

inductive WState
  | startup
  | active
  | maint
  | shutdown
deriving DecidableEq, Repr

/-- The numeric / boolean pool configuration fields the embedded operations
read (defaults from worker_pool.js `defaultConfig`).  `maint_method_time`
models `maint_method == 'time'` (`false` = `'requests'`). -/
structure PoolConfig where
  min_children : Nat := 1
  max_children : Nat := 1
  max_concurrent_requests : Nat := 0
  max_requests_per_child : Nat := 0
  max_concurrent_launches : Nat := 1
  max_concurrent_maint : Nat := 1
  child_headroom_pct : Nat := 0
  child_busy_factor : Nat := 1
  startup_timeout_sec : Nat := 0
  shutdown_timeout_sec : Nat := 10
  request_timeout_sec : Nat := 0
  maint_timeout_sec : Nat := 0
  auto_maint : Bool := false
  maint_method_time : Bool := false
  maint_requests : Nat := 1000
  maint_time_sec : Nat := 0
deriving DecidableEq, Repr

/-- The parts of the caller-supplied `args` that the proxy reads:
`args.cmd == 'custom'` (a custom request has no `args.request` object), and
`args.request.url` for web requests. -/
structure ReqArgs where
  isCustom : Bool
  url : String
deriving DecidableEq, Repr

/-- One entry of the proxy's pending-request table
(`this.requests[data.id] = { args, callback, timer }`).  The caller callback
is identified by the request id; `timer` is true while the per-request
timeout is armed. -/
structure PendingReq where
  args : ReqArgs
  timer : Bool
deriving DecidableEq, Repr

/-- Association-list lookup (JS `obj[key]`). -/
def alookup {α β : Type} [DecidableEq α] : List (α × β) → α → Option β
  | [], _ => none
  | (k, v) :: t, k0 => if k = k0 then some v else alookup t k0

/-- Association-list set (JS `obj[key] = v`): replace in place if present,
else append (JS objects keep key insertion order). -/
def aset {α β : Type} [DecidableEq α] : List (α × β) → α → β → List (α × β)
  | [], k, v => [(k, v)]
  | (k0, v0) :: t, k, v =>
    if k0 = k then (k, v) :: t else (k0, v0) :: aset t k v

/-- Association-list delete (JS `delete obj[key]`). -/
def aerase {α β : Type} [DecidableEq α] : List (α × β) → α → List (α × β)
  | [], _ => []
  | (k0, v0) :: t, k => if k0 = k then t else (k0, v0) :: aerase t k

/-- Parent-side representative of one worker child process
(worker_proxy.js).  `hasStream` records whether `encodeStream` exists (it is
created only after a successful spawn); `shut`, `started`, `child_exited`
are the JS flags of the same names. -/
structure WorkerProxy where
  pid : Nat := 0
  state : WState := WState.startup
  requests : List (String × PendingReq) := []
  num_requests_served : Nat := 0
  num_active_requests : Nat := 0
  max_requests_per_child : Nat := 0
  last_maint : Nat := 0
  started : Bool := false
  child_exited : Bool := false
  shut : Bool := false
  request_maint : Bool := false
  request_restart : Bool := false
  startup_timer : Bool := false
  maint_timer : Bool := false
  kill_timer : Bool := false
  hasStream : Bool := false
deriving DecidableEq, Repr

/-- Response-type discriminator of a child `response` frame
(`data.type`); `plain` stands for an absent type, `string`, or `sse`, all of
which fall through the `switch` in `handleChildResponse` to the generic
callback path. -/
inductive RType
  | plain
  | buffer
  | stream
  | passthrough
  | json
  | file
deriving DecidableEq, Repr

/-- The fields of a child `response` frame that `handleChildResponse`
branches on.  `status = none` models an absent `data.status` (the callback
then receives `"200 OK"`); `del` is the `delete` flag of file responses. -/
structure RespData where
  id : String
  status : Option String := none
  rtype : RType := RType.plain
  del : Bool := false
deriving DecidableEq, Repr

/-- Frames arriving from the child on the decode stream, discriminated on
`data.cmd` (absent `cmd` means `response`). -/
inductive CFrame
  | startupComplete
  | maintComplete
  | message
  | internal
  | response (d : RespData)
deriving DecidableEq, Repr

/-- Externally observable effects of a proxy operation. -/
inductive Output
  | callback (id : String) (status : String)
  | startupCb (err : Bool)
  | frameToChild (cmd : String)
  | logErrorOut (code : String) (msg : String)
  | emitEvent (name : String)
  | killChild (sig : String)
  | statIssued (d : RespData)
deriving DecidableEq, Repr

/-- Number of caller-callback invocations for a given request id among the
outputs of a run. -/
def countCallbacks (outs : List Output) (id : String) : Nat :=
  (outs.filter (fun o => match o with
    | Output.callback i _ => i = id
    | _ => false)).length

/-! ## Worker proxy operations (src/worker_proxy.js) -/

/-- Result of `handleChildResponse` and its callers: new proxy state, emitted
outputs, number of `pool.num_active_requests` decrements performed, and the
`fs.stat` calls issued by file responses (resolved later by a `statDone`
event). -/
structure HCROut where
  w : WorkerProxy
  outs : List Output
  poolDec : Nat
  stats : List RespData
deriving DecidableEq, Repr

/-- `handleChildResponse` (worker_proxy.js lines 360-469).  The
`maint_complete` case cancels the maint timer and calls
`changeState('active')` unconditionally; `message` / `internal` emit events;
`startup_complete` (reaching here only when `started` is already true) falls
through the `switch` and fails the request lookup; a `response` is correlated
by id — a missing entry is logged and ignored; a found entry has its timeout
cancelled, then `file` responses defer to `sendFileResponse` (an `fs.stat`
call) while every other type deletes the entry, bumps
`num_requests_served`, decrements both active-request counters and fires the
caller callback with `data.status || "200 OK"`. -/
def handleChildResponse (w : WorkerProxy) (f : CFrame) : HCROut :=
  match f with
  | CFrame.maintComplete =>
    { w := { w with maint_timer := false, state := WState.active },
      outs := [], poolDec := 0, stats := [] }
  | CFrame.message =>
    { w := w, outs := [Output.emitEvent "message"], poolDec := 0, stats := [] }
  | CFrame.internal =>
    { w := w, outs := [Output.emitEvent "internal"], poolDec := 0, stats := [] }
  | CFrame.startupComplete =>
    { w := w, outs := [Output.logErrorOut "child" "Request not found"],
      poolDec := 0, stats := [] }
  | CFrame.response d =>
    match alookup w.requests d.id with
    | none =>
      { w := w, outs := [Output.logErrorOut "child" ("Request not found: " ++ d.id)],
        poolDec := 0, stats := [] }
    | some req =>
      let w1 : WorkerProxy :=
        { w with requests := aset w.requests d.id { req with timer := false } }
      match d.rtype with
      | RType.file =>
        { w := w1, outs := [Output.statIssued d], poolDec := 0, stats := [d] }
      | _ =>
        { w := { w1 with
            requests := aerase w1.requests d.id,
            num_requests_served := w1.num_requests_served + 1,
            num_active_requests := w1.num_active_requests - 1 },
          outs := [Output.callback d.id (d.status.getD "200 OK")],
          poolDec := 1, stats := [] }

/-- The `fs.stat` completion inside `sendFileResponse` (worker_proxy.js
lines 471-506).  On stat success the response is re-submitted to
`handleChildResponse` with `type: 'stream'`; on stat failure `req.callback`
is invoked directly with a 500 — without touching the pending table or any
counter. -/
def statResultStep (w : WorkerProxy) (d : RespData) (ok : Bool) : HCROut :=
  if ok then
    handleChildResponse w (CFrame.response { d with rtype := RType.stream })
  else
    { w := w,
      outs := [Output.logErrorOut "500" "Could not stat file",
               Output.callback d.id "500 Internal Server Error"],
      poolDec := 0, stats := [] }

/-- `handleChildTimeout` (worker_proxy.js lines 345-358): if the entry still
exists, clear its timer handle and feed a synthetic
`504 Gateway Timeout` response through `handleChildResponse`. -/
def handleChildTimeout (w : WorkerProxy) (id : String) : HCROut :=
  match alookup w.requests id with
  | none => { w := w, outs := [], poolDec := 0, stats := [] }
  | some req =>
    let w1 : WorkerProxy :=
      { w with requests := aset w.requests id { req with timer := false } }
    let r := handleChildResponse w1 (CFrame.response
      { id := id, status := some "504 Gateway Timeout" })
    { r with outs := Output.logErrorOut "504" "Worker request exceeded maximum allowed time" :: r.outs }

/-- Result of `abortAllRequests`: `threw` records that the JS code raised a
`TypeError` (accessing `req.args.request.url` when `args.request` is
undefined, i.e. for a custom request), aborting the loop with the mutations
made so far. -/
structure AbortOut where
  w : WorkerProxy
  outs : List Output
  poolDec : Nat
  threw : Bool
deriving DecidableEq, Repr

/-- Loop body of `abortAllRequests` over the pending ids (insertion order). -/
def abortAllRequestsGo : WorkerProxy → List String → List Output → Nat → AbortOut
  | w, [], outs, dec =>
    -- end of loop: `this.requests = {}`
    { w := { w with requests := [] }, outs := outs, poolDec := dec, threw := false }
  | w, id :: rest, outs, dec =>
    match alookup w.requests id with
    | none => abortAllRequestsGo w rest outs dec
    | some req =>
      if req.args.isCustom then
        -- `this.logError(500, "Aborted request: " + req.args.request.url + ...)`:
        -- `args.request` is undefined for a custom request, so reading `.url`
        -- throws a TypeError and the whole handler aborts here
        { w := w, outs := outs, poolDec := dec, threw := true }
      else
        let r := handleChildResponse w (CFrame.response
          { id := id, status := some "500 Internal Server Error" })
        abortAllRequestsGo r.w rest
          (outs ++ Output.logErrorOut "500" ("Aborted request: " ++ req.args.url) :: r.outs)
          (dec + r.poolDec)

/-- `abortAllRequests` (worker_proxy.js lines 326-343). -/
def abortAllRequests (w : WorkerProxy) : AbortOut :=
  abortAllRequestsGo w (w.requests.map Prod.fst) [] 0

/-- Result of a proxy event step at the proxy level. -/
structure StepOut where
  w : WorkerProxy
  outs : List Output
  poolInc : Nat
  poolDec : Nat
  removeFromPool : Bool
  threw : Bool
deriving DecidableEq, Repr

def HCROut.toStep (r : HCROut) : StepOut :=
  { w := r.w, outs := r.outs, poolInc := 0, poolDec := r.poolDec,
    removeFromPool := false, threw := false }

/-- The child `exit` / `error` handlers (worker_proxy.js lines 144-202):
set `shut`, transition to `shutdown`, set `child_exited`, abort all pending
requests, notify the pool for removal, cancel the startup/kill/maint timers,
and fire the startup callback with an error if startup had not completed.
If `abortAllRequests` throws, everything after it is skipped and the
mutations made so far persist. -/
def onChildExit (w : WorkerProxy) : StepOut :=
  let w1 : WorkerProxy := { w with shut := true, state := WState.shutdown, child_exited := true }
  let a := abortAllRequests w1
  if a.threw then
    { w := a.w, outs := a.outs, poolInc := 0, poolDec := a.poolDec,
      removeFromPool := false, threw := true }
  else
    let w2 : WorkerProxy := { a.w with startup_timer := false, kill_timer := false, maint_timer := false }
    { w := w2,
      outs := a.outs ++ (if w.started then [] else [Output.startupCb true]),
      poolInc := 0, poolDec := a.poolDec, removeFromPool := true, threw := false }

/-- The decode-stream `data` handler (worker_proxy.js lines 106-125): a
first `startup_complete` cancels the startup timer, marks `started`,
transitions to `active` and fires the startup callback; everything else goes
to `handleChildResponse`. -/
def onChildFrame (w : WorkerProxy) (f : CFrame) : StepOut :=
  match f with
  | CFrame.startupComplete =>
    if w.started then (handleChildResponse w f).toStep
    else
      { w := { w with startup_timer := false, started := true, state := WState.active },
        outs := [Output.startupCb false], poolInc := 0, poolDec := 0,
        removeFromPool := false, threw := false }
  | _ => (handleChildResponse w f).toStep

/-- `WorkerProxy.delegateRequest` (worker_proxy.js lines 218-277): insert
the pending entry with an armed timer iff `request_timeout_sec` is nonzero,
increment both active-request counters (the pool side is the `poolInc`),
and write the request frame to the child. -/
def WorkerProxy.delegateRequest (w : WorkerProxy) (cfg : PoolConfig)
    (args : ReqArgs) (newId : String) : StepOut :=
  { w := { w with
      requests := aset w.requests newId
        { args := args, timer := cfg.request_timeout_sec > 0 },
      num_active_requests := w.num_active_requests + 1 },
    outs := [Output.frameToChild (if args.isCustom then "custom" else "request")],
    poolInc := 1, poolDec := 0, removeFromPool := false, threw := false }

/-- `WorkerProxy.maint` (worker_proxy.js lines 508-527): write the `maint`
frame, transition to `maint`, arm the maint timer iff `maint_timeout_sec`
is nonzero. -/
def WorkerProxy.doMaint (w : WorkerProxy) (cfg : PoolConfig) : WorkerProxy × List Output :=
  ({ w with state := WState.maint, maint_timer := cfg.maint_timeout_sec > 0 },
   [Output.frameToChild "maint"])

/-- `WorkerProxy.shutdown` (worker_proxy.js lines 529-550): guarded by the
existence of `encodeStream`; writes the `shutdown` frame, sets `shut`,
transitions to `shutdown` and arms the kill timer. -/
def WorkerProxy.doShutdown (w : WorkerProxy) : WorkerProxy × List Output :=
  if w.hasStream then
    ({ w with shut := true, state := WState.shutdown, kill_timer := true },
     [Output.frameToChild "shutdown"])
  else (w, [])

/-- Events a proxy can experience.  `maintCmd` is the pool tick invoking
`proxy.maint`, which worker_pool.js only does for a proxy observed in the
`active` state; `delegateCmd` is a dispatch.  Timer-fire events act only if
the corresponding timer is armed. -/
inductive ProxyEvent
  | frame (f : CFrame)
  | reqTimeout (id : String)
  | maintTimerFire
  | killTimerFire
  | startupTimerFire
  | statDone (d : RespData) (ok : Bool)
  | childExit
  | childErr
  | shutdownCmd
  | maintCmd
  | delegateCmd (args : ReqArgs) (newId : String)
deriving DecidableEq, Repr

def stepOfPair (p : WorkerProxy × List Output) : StepOut :=
  { w := p.1, outs := p.2, poolInc := 0, poolDec := 0,
    removeFromPool := false, threw := false }

/-- One proxy event step. -/
def proxyStep (cfg : PoolConfig) (w : WorkerProxy) (e : ProxyEvent) : StepOut :=
  match e with
  | ProxyEvent.frame f => onChildFrame w f
  | ProxyEvent.reqTimeout id =>
    if w.requests.any (fun kv => kv.1 = id ∧ kv.2.timer) then
      (handleChildTimeout w id).toStep
    else stepOfPair (w, [])
  | ProxyEvent.maintTimerFire =>
    if w.maint_timer then
      let p := WorkerProxy.doShutdown w
      stepOfPair ({ p.1 with maint_timer := false },
        Output.logErrorOut "maint" "Maintenance took longer than maint_timeout_sec" :: p.2)
    else stepOfPair (w, [])
  | ProxyEvent.killTimerFire =>
    if w.kill_timer then
      stepOfPair ({ w with kill_timer := false },
        [Output.logErrorOut "child" "Child did not shutdown", Output.killChild "SIGKILL"])
    else stepOfPair (w, [])
  | ProxyEvent.startupTimerFire =>
    if w.startup_timer then
      stepOfPair ({ w with startup_timer := false },
        [Output.logErrorOut "child" "Child startup timeout", Output.killChild "SIGKILL"])
    else stepOfPair (w, [])
  | ProxyEvent.statDone d ok => (statResultStep w d ok).toStep
  | ProxyEvent.childExit => onChildExit w
  | ProxyEvent.childErr => onChildExit w
  | ProxyEvent.shutdownCmd => stepOfPair (WorkerProxy.doShutdown w)
  | ProxyEvent.maintCmd =>
    if w.state = WState.active then stepOfPair (WorkerProxy.doMaint w cfg)
    else stepOfPair (w, [])
  | ProxyEvent.delegateCmd args newId => WorkerProxy.delegateRequest w cfg args newId

/-- Run a proxy through a list of events, accumulating outputs. -/
def runProxy (cfg : PoolConfig) : WorkerProxy → List ProxyEvent → WorkerProxy × List Output
  | w, [] => (w, [])
  | w, e :: es =>
    let s := proxyStep cfg w e
    let r := runProxy cfg s.w es
    (r.1, s.outs ++ r.2)

/-! ## Concrete fixtures and claims C1, C2, C3 -/

/-- A pool config with a request timeout configured. -/
def cfgT : PoolConfig := { request_timeout_sec := 30 }

/-- A healthy post-startup proxy with no pending requests. -/
def wActive : WorkerProxy :=
  { pid := 123, state := WState.active, started := true, hasStream := true }

def webArgs : ReqArgs := { isCustom := false, url := "/test" }

def customArgs : ReqArgs := { isCustom := true, url := "" }

/-- A `file`-type response frame from the child for request `r1`. -/
def fileResp : RespData := { id := "r1", status := some "200 OK", rtype := RType.file }

/-- Trace: dispatch request r1, child answers with a `file` response, the
`fs.stat` fails, then the child exits. -/
def c1trace : List ProxyEvent :=
  [ProxyEvent.delegateCmd webArgs "r1",
   ProxyEvent.frame (CFrame.response fileResp),
   ProxyEvent.statDone fileResp false,
   ProxyEvent.childExit]

/-- C1 (code bug): the caller callback of request r1 is invoked TWICE on the
stat-failure path — `sendFileResponse` fires `req.callback` with a 500 but
never removes the pending entry or decrements the counters, so the later
child exit aborts the same entry and fires the callback again.  The claim
(and the spec's exactly-once property) is violated by the code. -/
theorem file_stat_failure_double_callback :
    countCallbacks (runProxy cfgT wActive c1trace).2 "r1" = 2 := by
  decide

/-- Proxy state with one pending custom request (from `delegateCustom`). -/
def wPendingCustom : WorkerProxy :=
  (proxyStep cfgT wActive (ProxyEvent.delegateCmd customArgs "c1")).w

/-- C2 (code bug): when the child exits while a custom request is pending,
`abortAllRequests` throws a TypeError (it reads `req.args.request.url` and
custom requests have no `args.request`), so the pending callback is never
invoked, the pending table is not emptied, and the pool is never notified
for removal — contradicting the claim that every pending request is failed
with a 500. -/
theorem custom_abort_throws :
    (proxyStep cfgT wPendingCustom ProxyEvent.childExit).threw = true
    ∧ countCallbacks (proxyStep cfgT wPendingCustom ProxyEvent.childExit).outs "c1" = 0
    ∧ (proxyStep cfgT wPendingCustom ProxyEvent.childExit).w.requests.length = 1
    ∧ (proxyStep cfgT wPendingCustom ProxyEvent.childExit).removeFromPool = false := by
  decide

/-- A started proxy that has entered the `shutdown` state (e.g. after a
maintenance timeout forced `shutdown()`). -/
def wShutdown : WorkerProxy :=
  { pid := 123, state := WState.shutdown, started := true, shut := true,
    hasStream := true, kill_timer := true }

/-- C3 counterexample: a `maint_complete` frame arriving while the proxy is
in `shutdown` moves it back to `active` — `handleChildResponse` calls
`changeState('active')` unconditionally, refuting the claimed monotonicity. -/
theorem maintComplete_reactivates_shutdown_proxy :
    (proxyStep cfgT wShutdown (ProxyEvent.frame CFrame.maintComplete)).w.state
      = WState.active := by
  decide

theorem hcr_response_state (w : WorkerProxy) (d : RespData) :
    (handleChildResponse w (CFrame.response d)).w.state = w.state := by
  simp only [handleChildResponse]
  cases alookup w.requests d.id with
  | none => rfl
  | some req => cases d.rtype <;> rfl

theorem abortGo_state (l : List String) (w : WorkerProxy) (outs : List Output)
    (dec : Nat) : (abortAllRequestsGo w l outs dec).w.state = w.state := by
  induction l generalizing w outs dec with
  | nil => rfl
  | cons id rest ih =>
    unfold abortAllRequestsGo
    cases h : alookup w.requests id with
    | none => exact ih w outs dec
    | some req =>
      by_cases hc : req.args.isCustom
      · simp [hc]
      · simp only [hc, if_false, Bool.false_eq_true]
        rw [ih]
        exact hcr_response_state w _

theorem hct_state (w : WorkerProxy) (id : String) :
    (handleChildTimeout w id).w.state = w.state := by
  simp only [handleChildTimeout]
  cases alookup w.requests id with
  | none => rfl
  | some req =>
    simp only
    rw [hcr_response_state]

/-- C3 amended: for a proxy that has completed startup, the `shutdown` state
absorbs every event except a `maint_complete` frame from the child, which
moves the proxy back to `active`. -/
theorem shutdown_absorbing_except_maintComplete (cfg : PoolConfig)
    (w : WorkerProxy) (e : ProxyEvent)
    (hs : w.state = WState.shutdown) (hst : w.started = true) :
    (proxyStep cfg w e).w.state =
      (if e = ProxyEvent.frame CFrame.maintComplete then WState.active
       else WState.shutdown) := by
  by_cases he : e = ProxyEvent.frame CFrame.maintComplete
  · subst he
    simp [proxyStep, onChildFrame, handleChildResponse, HCROut.toStep]
  · rw [if_neg he]
    cases e with
    | frame f =>
      cases f with
      | startupComplete =>
        simp [proxyStep, onChildFrame, hst, handleChildResponse, HCROut.toStep, hs]
      | maintComplete => exact absurd rfl he
      | message =>
        simp [proxyStep, onChildFrame, handleChildResponse, HCROut.toStep, hs]
      | internal =>
        simp [proxyStep, onChildFrame, handleChildResponse, HCROut.toStep, hs]
      | response d =>
        simp only [proxyStep, onChildFrame, HCROut.toStep]
        rw [hcr_response_state]
        exact hs
    | reqTimeout id =>
      simp only [proxyStep]
      split
      · simp only [HCROut.toStep]
        rw [hct_state]
        exact hs
      · exact hs
    | maintTimerFire =>
      simp only [proxyStep]
      split
      · simp only [stepOfPair, WorkerProxy.doShutdown]
        by_cases hh : w.hasStream <;> simp [hh, hs]
      · exact hs
    | killTimerFire =>
      simp only [proxyStep]
      split <;> exact hs
    | startupTimerFire =>
      simp only [proxyStep]
      split <;> exact hs
    | statDone d ok =>
      simp only [proxyStep, HCROut.toStep, statResultStep]
      split
      · rw [hcr_response_state]; exact hs
      · exact hs
    | childExit =>
      simp only [proxyStep, onChildExit, abortAllRequests]
      split <;> simp [abortGo_state]
    | childErr =>
      simp only [proxyStep, onChildExit, abortAllRequests]
      split <;> simp [abortGo_state]
    | shutdownCmd =>
      simp only [proxyStep, stepOfPair, WorkerProxy.doShutdown]
      by_cases hh : w.hasStream <;> simp [hh, hs]
    | maintCmd =>
      simp [proxyStep, stepOfPair, hs]
    | delegateCmd args newId =>
      simp [proxyStep, WorkerProxy.delegateRequest, hs]

/-- Witness for `shutdown_absorbing_except_maintComplete` at a concrete
proxy and event. -/
theorem shutdown_absorbing_witness :
    (proxyStep cfgT wShutdown ProxyEvent.childExit).w.state = WState.shutdown := by
  have h := shutdown_absorbing_except_maintComplete cfgT wShutdown
    ProxyEvent.childExit rfl rfl
  simpa using h

/-! ## Worker pool (src/unnamed/part_000 — worker_pool.js) -/

/-- A pool of worker proxies: pid → proxy map (insertion-ordered), the
round-robin `maint_roll` cursor, and the pool-level active-request counter. -/
structure WorkerPool where
  config : PoolConfig := {}
  workers : List (Nat × WorkerProxy) := []
  maint_roll : List Nat := []
  num_active_requests : Nat := 0
deriving DecidableEq, Repr

inductive DispatchOutcome
  | rejected429
  | rejected503
  | dispatched (pid : Nat)
deriving DecidableEq, Repr

/-- The `min_concurrent` scan of `WorkerPool.delegateRequest`: starting from
the sentinel 9999999, lower it to each active worker's
`num_active_requests` that undercuts the current value. -/
def minConcurrentFold : List (Nat × WorkerProxy) → Nat → Nat
  | [], m => m
  | (_, w) :: t, m =>
    minConcurrentFold t
      (if w.state = WState.active ∧ w.num_active_requests < m
       then w.num_active_requests else m)

/-- The `chosen_few` scan: all active workers whose `num_active_requests`
equals `min_concurrent`. -/
def chosenFew (l : List (Nat × WorkerProxy)) (m : Nat) : List (Nat × WorkerProxy) :=
  l.filter (fun kv => kv.2.state = WState.active ∧ kv.2.num_active_requests = m)

/-- `WorkerPool.delegateRequest` (worker_pool.js lines 109-158).  `pick`
models the random index drawn by `Tools.randArray`.  The id later assigned
to the request doubles as the identity of the caller callback in the 429 /
503 rejection outputs. -/
def Pool.delegateRequest (p : WorkerPool) (args : ReqArgs) (newId : String)
    (pick : Nat) : WorkerPool × DispatchOutcome × List Output :=
  if p.config.max_concurrent_requests > 0 ∧
      p.num_active_requests ≥ p.config.max_concurrent_requests then
    (p, DispatchOutcome.rejected429, [Output.callback newId "429 Too Many Requests"])
  else
    let m := minConcurrentFold p.workers 9999999
    let few := chosenFew p.workers m
    match few with
    | [] => (p, DispatchOutcome.rejected503,
        [Output.callback newId "503 Service Unavailable"])
    | _ :: _ =>
      let kv := few.getD (pick % few.length) (0, {})
      let s := WorkerProxy.delegateRequest kv.2 p.config args newId
      ({ p with
          workers := aset p.workers kv.1 s.w,
          num_active_requests := p.num_active_requests + s.poolInc - s.poolDec },
        DispatchOutcome.dispatched kv.1, s.outs)

/-- Outcome of the synchronous part of spawning a child inside
`WorkerProxy.startup`: either `cp.spawn` succeeds and yields a pid, or it
throws. -/
inductive SpawnOutcome
  | ok (pid : Nat)
  | fail
deriving DecidableEq, Repr

/-- The worker proxy produced by `new WorkerProxy(config, pool)` followed by
the synchronous part of `startup()` (worker_proxy.js lines 26-104).  On a
spawn throw, `startup` returns before creating the streams or assigning
`pid` / `started` / `child_exited` / `last_maint`, so the prototype
defaults remain (`pid = 0`, no stream).  `max_requests_per_child` is
modelled for a scalar config value (the random-range case resolves to some
scalar in the same way). -/
def newWorkerProxy (cfg : PoolConfig) (sp : SpawnOutcome) (now : Nat) : WorkerProxy :=
  match sp with
  | SpawnOutcome.ok pid =>
    { pid := pid, state := WState.startup, hasStream := true,
      last_maint := if cfg.maint_method_time then now else 0,
      startup_timer := cfg.startup_timeout_sec > 0,
      max_requests_per_child := cfg.max_requests_per_child }
  | SpawnOutcome.fail =>
    { pid := 0, state := WState.startup, hasStream := false,
      max_requests_per_child := cfg.max_requests_per_child }

/-- `WorkerPool.addWorker` (worker_pool.js lines 81-97): construct the
proxy, start it (a spawn throw reports the error to the callback), then
unconditionally insert the proxy into the pid map under `worker.pid` —
which is 0 when the spawn threw.  Returns (pool, worker.pid, outputs). -/
def addWorker (p : WorkerPool) (sp : SpawnOutcome) (now : Nat) :
    WorkerPool × Nat × List Output :=
  let w := newWorkerProxy p.config sp now
  let outs : List Output :=
    match sp with
    | SpawnOutcome.fail =>
      [Output.logErrorOut "child" "Failed to start worker", Output.startupCb true]
    | SpawnOutcome.ok _ => [Output.frameToChild "startup"]
  ({ p with workers := aset p.workers w.pid w }, w.pid, outs)

/-- Per-state worker counts (`WorkerPool.getStates`). -/
def countState (l : List (Nat × WorkerProxy)) (st : WState) : Nat :=
  (l.filter (fun kv => kv.2.state = st)).length

structure TickStates where
  stStartup : Nat
  stActive : Nat
  stMaint : Nat
  stShutdown : Nat
deriving DecidableEq, Repr

def getStates (p : WorkerPool) : TickStates :=
  { stStartup := countState p.workers WState.startup,
    stActive := countState p.workers WState.active,
    stMaint := countState p.workers WState.maint,
    stShutdown := countState p.workers WState.shutdown }

/-- The auto-maint / user-maint decision of `tick` on the focus worker
(worker_pool.js lines 253-276): possibly updates `last_maint`, consumes
`request_maint`, and reports whether maintenance is due. -/
def maintDecision (cfg : PoolConfig) (w : WorkerProxy) (now : Nat) :
    WorkerProxy × Bool :=
  let a :=
    if w.state = WState.active ∧ cfg.auto_maint then
      if cfg.maint_method_time then
        if now - w.last_maint ≥ cfg.maint_time_sec then
          ({ w with last_maint := now }, true)
        else (w, false)
      else
        if w.num_requests_served - w.last_maint ≥ cfg.maint_requests then
          ({ w with last_maint := w.num_requests_served }, true)
        else (w, false)
    else (w, false)
  if a.1.state = WState.active ∧ a.1.request_maint then
    ({ a.1 with request_maint := false }, true)
  else a

structure FocusOut where
  w : WorkerProxy
  s : TickStates
  outs : List Output
deriving DecidableEq, Repr

/-- The maintenance decision of `tick` on the focus worker (worker_pool.js
lines 252-287), guarded by `states.maint < max_concurrent_maint` and
`states.active > 1`, adjusting the local `states` bookkeeping as the code
does. -/
def tickMaintPhase (cfg : PoolConfig) (w : WorkerProxy) (s : TickStates)
    (now : Nat) : FocusOut :=
  if s.stMaint < cfg.max_concurrent_maint ∧ s.stActive > 1 then
    let d := maintDecision cfg w now
    if d.2 then
      let m := WorkerProxy.doMaint d.1 cfg
      { w := m.1,
        s := { s with stActive := s.stActive - 1, stMaint := s.stMaint + 1 },
        outs := m.2 ++ [Output.emitEvent "maint"] }
    else { w := d.1, s := s, outs := [] }
  else { w := w, s := s, outs := [] }

/-- The end-of-life recycle and rolling-restart decisions of `tick` on the
focus worker (worker_pool.js lines 289-315), guarded by
`states.startup + states.shutdown < max_concurrent_launches`. -/
def tickRestartPhase (cfg : PoolConfig) (mp : FocusOut) : FocusOut :=
  if mp.s.stStartup + mp.s.stShutdown < cfg.max_concurrent_launches then
    let rp : FocusOut :=
      if mp.w.state = WState.active ∧ mp.w.max_requests_per_child > 0 ∧
          mp.s.stActive > 1 ∧
          mp.w.num_requests_served ≥ mp.w.max_requests_per_child then
        let sh := WorkerProxy.doShutdown mp.w
        { w := sh.1,
          s := { mp.s with
                  stActive := mp.s.stActive - 1,
                  stShutdown := mp.s.stShutdown + 1 },
          outs := mp.outs ++ sh.2 ++ [Output.emitEvent "restart"] }
      else mp
    if rp.w.state = WState.active ∧ rp.w.request_restart ∧ rp.s.stActive > 1 then
      let sh := WorkerProxy.doShutdown { rp.w with request_restart := false }
      { w := sh.1,
        s := { rp.s with
                stActive := rp.s.stActive - 1,
                stShutdown := rp.s.stShutdown + 1 },
        outs := rp.outs ++ sh.2 ++ [Output.emitEvent "restart"] }
    else rp
  else mp

/-- The per-focus-worker actions of `tick` (worker_pool.js lines 248-317):
the maintenance phase followed by the recycle/restart phase. -/
def tickFocusActions (cfg : PoolConfig) (w : WorkerProxy) (s : TickStates)
    (now : Nat) : FocusOut :=
  tickRestartPhase cfg (tickMaintPhase cfg w s now)

/-- Focus-worker selection and actions of `tick`: pick the first pid not yet
in `maint_roll` and mark it; when all are marked, reset the roll and focus
the first key (without marking it) — with no workers there is no focus.
Returns the pool after the focus phase together with the adjusted
bookkeeping states and outputs. -/
def tickFocus (p : WorkerPool) (now : Nat) : WorkerPool × TickStates × List Output :=
  let s := getStates p
  match p.workers.find? (fun kv => ¬ p.maint_roll.contains kv.1) with
  | some kv =>
    let f := tickFocusActions p.config kv.2 s now
    ({ p with
        maint_roll := p.maint_roll ++ [kv.1],
        workers := aset p.workers kv.1 f.w }, f.s, f.outs)
  | none =>
    match p.workers with
    | [] => ({ p with maint_roll := [] }, s, [])
    | kv :: _ =>
      let f := tickFocusActions p.config kv.2 s now
      ({ p with
          maint_roll := [],
          workers := aset p.workers kv.1 f.w }, f.s, f.outs)

/-- `num_busy` of the auto-scale scan: active workers with at least
`child_busy_factor` active requests. -/
def numBusy (p : WorkerPool) : Nat :=
  (p.workers.filter (fun kv => kv.2.state = WState.active ∧
    kv.2.num_active_requests ≥ p.config.child_busy_factor)).length

def totalChildren (p : WorkerPool) : Nat := p.workers.length

/-- `idle_kids` of the auto-scale scan: active workers that are not busy and
have zero active requests (the code's `else if (!worker.num_active_requests)`
after the busy test). -/
def idleKids (p : WorkerPool) : List Nat :=
  (p.workers.filter (fun kv => kv.2.state = WState.active ∧
    kv.2.num_active_requests < p.config.child_busy_factor ∧
    kv.2.num_active_requests = 0)).map Prod.fst

/-- `num_busy_adj = Math.floor(num_busy + num_busy * (child_headroom_pct /
100))`, clamped up to `min_children - 1`. -/
def numBusyAdj (p : WorkerPool) : Nat :=
  let nb := numBusy p
  max (nb + nb * p.config.child_headroom_pct / 100) (p.config.min_children - 1)

/-- The pool-wide auto-scale decision of `tick` (worker_pool.js lines
319-357), applied after the focus-worker phase: at most one of
`add worker` / `shutdown one idle worker`. -/
def tickScale (p1 : WorkerPool) (s : TickStates) (sp : SpawnOutcome)
    (now : Nat) : WorkerPool × List Output :=
  let adj := numBusyAdj p1
  if adj ≥ s.stStartup + s.stActive ∧
      s.stStartup < p1.config.max_concurrent_launches ∧
      totalChildren p1 - s.stShutdown < p1.config.max_children then
    let r := addWorker p1 sp now
    (r.1, r.2.2 ++ [Output.emitEvent "autoscale_add"])
  else if adj < s.stActive - 1 ∧ s.stActive > 1 ∧
      totalChildren p1 > p1.config.min_children then
    match idleKids p1 with
    | [] => (p1, [])
    | pid :: _ =>
      match alookup p1.workers pid with
      | none => (p1, [])
      | some w =>
        let sh := WorkerProxy.doShutdown w
        ({ p1 with workers := aset p1.workers pid sh.1 },
          sh.2 ++ [Output.emitEvent "autoscale_remove"])
  else (p1, [])

/-- `WorkerPool.tick` (worker_pool.js lines 226-358): focus-worker phase
then auto-scale phase.  `sp` is the spawn outcome used if the tick decides
to add a worker. -/
def tick (p : WorkerPool) (now : Nat) (sp : SpawnOutcome) :
    WorkerPool × List Output :=
  let f := tickFocus p now
  let r := tickScale f.1 f.2.1 sp now
  (r.1, f.2.2 ++ r.2)

/-- `WorkerPool.shutdown`'s first phase: call `shutdown()` on every worker
(worker_pool.js lines 381-399; the wait-for-exit loop is time-driven and
not part of the state change). -/
def shutdownAllWorkers (p : WorkerPool) : WorkerPool × List Output :=
  ({ p with workers := p.workers.map (fun kv => (kv.1, (WorkerProxy.doShutdown kv.2).1)) },
   p.workers.foldr (fun kv acc => (WorkerProxy.doShutdown kv.2).2 ++ acc) [])

/-- Pool-level events for the step relation. -/
inductive PoolEvent
  | evDelegate (args : ReqArgs) (newId : String) (pick : Nat)
  | evWorker (pid : Nat) (e : ProxyEvent)
  | evTick (now : Nat) (sp : SpawnOutcome)
  | evAddWorker (sp : SpawnOutcome) (now : Nat)
  | evShutdownAll
  | evRequestMaint
  | evRequestRestart
  | evSendMessage
deriving DecidableEq, Repr

/-- Apply a proxy-level step result at the pool level: write back the proxy,
apply the pool-counter increments/decrements performed by the proxy code,
and remove the proxy when `notifyWorkerExit` ran. -/
def applyWorkerStep (p : WorkerPool) (pid : Nat) (s : StepOut) : WorkerPool :=
  let p1 : WorkerPool :=
    { p with
        workers := aset p.workers pid s.w,
        num_active_requests := p.num_active_requests + s.poolInc - s.poolDec }
  if s.removeFromPool then { p1 with workers := aerase p1.workers pid } else p1

/-- One pool-level step. -/
def poolStep (p : WorkerPool) (ev : PoolEvent) : WorkerPool × List Output :=
  match ev with
  | PoolEvent.evDelegate args newId pick =>
    let r := Pool.delegateRequest p args newId pick
    (r.1, r.2.2)
  | PoolEvent.evWorker pid e =>
    match alookup p.workers pid with
    | none => (p, [])
    | some w =>
      let s := proxyStep p.config w e
      (applyWorkerStep p pid s, s.outs)
  | PoolEvent.evTick now sp => tick p now sp
  | PoolEvent.evAddWorker sp now =>
    let r := addWorker p sp now
    (r.1, r.2.2)
  | PoolEvent.evShutdownAll => shutdownAllWorkers p
  | PoolEvent.evRequestMaint =>
    ({ p with workers := p.workers.map (fun kv => (kv.1, { kv.2 with request_maint := true })) }, [])
  | PoolEvent.evRequestRestart =>
    ({ p with workers := p.workers.map (fun kv => (kv.1, { kv.2 with request_restart := true })) }, [])
  | PoolEvent.evSendMessage =>
    (p, p.workers.filterMap (fun kv =>
      if kv.2.hasStream then some (Output.frameToChild "message") else none))

/-! ## Claims C4 and C5 -/

/-- C5: with a positive concurrency cap already reached, `delegateRequest`
rejects with 429 Too Many Requests, dispatches nothing, and leaves the pool
(and hence every counter) unchanged. -/
theorem delegateRequest_cap_429 (p : WorkerPool) (args : ReqArgs)
    (newId : String) (pick : Nat)
    (hcap : p.config.max_concurrent_requests > 0)
    (hfull : p.num_active_requests ≥ p.config.max_concurrent_requests) :
    Pool.delegateRequest p args newId pick =
      (p, DispatchOutcome.rejected429,
        [Output.callback newId "429 Too Many Requests"]) := by
  unfold Pool.delegateRequest
  rw [if_pos ⟨hcap, hfull⟩]

/-- A pool with cap 1 already serving one request. -/
def capPool : WorkerPool :=
  { config := { max_concurrent_requests := 1 }, num_active_requests := 1,
    workers := [(5, wActive)] }

/-- Witness for `delegateRequest_cap_429`. -/
theorem delegateRequest_cap_429_witness :
    Pool.delegateRequest capPool webArgs "r9" 0 =
      (capPool, DispatchOutcome.rejected429,
        [Output.callback "r9" "429 Too Many Requests"]) :=
  delegateRequest_cap_429 capPool webArgs "r9" 0 (by decide) (by decide)

theorem minConcurrentFold_le (l : List (Nat × WorkerProxy)) (m : Nat) :
    minConcurrentFold l m ≤ m := by
  induction l generalizing m with
  | nil => simp [minConcurrentFold]
  | cons kv t ih =>
    obtain ⟨k, w⟩ := kv
    rw [minConcurrentFold]
    refine le_trans (ih _) ?_
    split <;> omega

theorem minConcurrentFold_le_active (l : List (Nat × WorkerProxy)) (m : Nat) :
    ∀ kv ∈ l, kv.2.state = WState.active →
      minConcurrentFold l m ≤ kv.2.num_active_requests := by
  induction l generalizing m with
  | nil => intro kv h; simp at h
  | cons hd t ih =>
    obtain ⟨k, w⟩ := hd
    intro kv hmem hact
    rw [minConcurrentFold]
    rcases List.mem_cons.mp hmem with heq | hmemt
    · subst heq
      refine le_trans (minConcurrentFold_le _ _) ?_
      simp only [hact]
      split <;> simp_all <;> omega
    · exact ih _ kv hmemt hact

theorem minConcurrentFold_attained (l : List (Nat × WorkerProxy)) (m : Nat) :
    minConcurrentFold l m = m ∨
    ∃ kv ∈ l, kv.2.state = WState.active ∧
      minConcurrentFold l m = kv.2.num_active_requests := by
  induction l generalizing m with
  | nil => left; simp [minConcurrentFold]
  | cons hd t ih =>
    obtain ⟨k, w⟩ := hd
    rw [minConcurrentFold]
    rcases ih (if w.state = WState.active ∧ w.num_active_requests < m
        then w.num_active_requests else m) with h | ⟨kv, hmem, hact, heq⟩
    · rw [h]
      split
      · rename_i hcond
        right
        exact ⟨(k, w), List.mem_cons_self _ _, hcond.1, rfl⟩
      · left; rfl
    · right
      exact ⟨kv, List.mem_cons_of_mem _ hmem, hact, heq⟩

theorem chosenFew_nonempty (l : List (Nat × WorkerProxy))
    (h : ∃ kv ∈ l, kv.2.state = WState.active ∧ kv.2.num_active_requests ≤ 9999999) :
    chosenFew l (minConcurrentFold l 9999999) ≠ [] := by
  obtain ⟨kv0, hmem0, hact0, hle0⟩ := h
  rcases minConcurrentFold_attained l 9999999 with hm | ⟨kv1, hmem1, hact1, heq1⟩
  · have h1 := minConcurrentFold_le_active l 9999999 kv0 hmem0 hact0
    have h2 : kv0.2.num_active_requests = minConcurrentFold l 9999999 := by omega
    intro hnil
    have : kv0 ∈ chosenFew l (minConcurrentFold l 9999999) := by
      unfold chosenFew
      rw [List.mem_filter]
      exact ⟨hmem0, by simp [hact0, h2]⟩
    rw [hnil] at this
    simp at this
  · intro hnil
    have : kv1 ∈ chosenFew l (minConcurrentFold l 9999999) := by
      unfold chosenFew
      rw [List.mem_filter]
      exact ⟨hmem1, by simp [hact1, heq1]⟩
    rw [hnil] at this
    simp at this

theorem chosenFew_mem (l : List (Nat × WorkerProxy)) (m : Nat)
    (kv : Nat × WorkerProxy) (h : kv ∈ chosenFew l m) :
    kv ∈ l ∧ kv.2.state = WState.active ∧ kv.2.num_active_requests = m := by
  unfold chosenFew at h
  rw [List.mem_filter] at h
  refine ⟨h.1, ?_, ?_⟩ <;> [skip; skip] <;>
    · have := h.2
      simp at this
      tauto

/-- An active worker with `num_active_requests` above the code's 9999999
sentinel. -/
def busyWorker : WorkerProxy :=
  { pid := 7, state := WState.active, started := true, hasStream := true,
    num_active_requests := 10000000 }

/-- C4 counterexample pool: its only worker is `busyWorker`. -/
def busyPool : WorkerPool :=
  { workers := [(7, busyWorker)], num_active_requests := 10000000 }

/-- C4 counterexample: `busyPool` gets a `503 Service Unavailable` even
though an active proxy exists, refuting "503 iff no proxy is in state
'active'". -/
theorem sentinel_503_despite_active_worker :
    (Pool.delegateRequest busyPool webArgs "r2" 0).2.1 = DispatchOutcome.rejected503
    ∧ ∃ kv ∈ busyPool.workers, kv.2.state = WState.active := by
  refine ⟨by decide, ⟨(7, busyWorker), ?_, rfl⟩⟩
  simp [busyPool]

/-- C4 amended: when the concurrency-cap check passes, the request is
rejected with 503 exactly when no active proxy has at most 9999999 (the
code's sentinel initial minimum) active requests; otherwise it is dispatched
to an active proxy whose `num_active_requests` is minimal among all active
proxies. -/
theorem delegateRequest_least_loaded (p : WorkerPool) (args : ReqArgs)
    (newId : String) (pick : Nat)
    (hcap : ¬ (p.config.max_concurrent_requests > 0 ∧
      p.num_active_requests ≥ p.config.max_concurrent_requests)) :
    ((Pool.delegateRequest p args newId pick).2.1 = DispatchOutcome.rejected503 ↔
      ∀ kv ∈ p.workers, kv.2.state = WState.active →
        kv.2.num_active_requests > 9999999)
    ∧ (∀ pid, (Pool.delegateRequest p args newId pick).2.1 =
          DispatchOutcome.dispatched pid →
        ∃ w, (pid, w) ∈ p.workers ∧ w.state = WState.active ∧
          ∀ kv ∈ p.workers, kv.2.state = WState.active →
            w.num_active_requests ≤ kv.2.num_active_requests) := by
  unfold Pool.delegateRequest
  rw [if_neg hcap]
  simp only
  cases hfew : chosenFew p.workers (minConcurrentFold p.workers 9999999) with
  | nil =>
    simp only
    constructor
    · constructor
      · intro _ kv hmem hact
        by_contra hgt
        exact chosenFew_nonempty p.workers ⟨kv, hmem, hact, by omega⟩ hfew
      · intro _
        trivial
    · intro pid h
      exact absurd h (by simp)
  | cons kv0 rest =>
    simp only
    constructor
    · constructor
      · intro h
        exact absurd h (by simp)
      · intro hall
        have hm := chosenFew_mem p.workers _ kv0 (hfew ▸ List.mem_cons_self _ _)
        have := hall kv0 hm.1 hm.2.1
        have hle : kv0.2.num_active_requests ≤ 9999999 :=
          hm.2.2 ▸ minConcurrentFold_le p.workers 9999999
        omega
    · intro pid h
      simp only [DispatchOutcome.dispatched.injEq] at h
      have hlt : pick % (kv0 :: rest).length < (kv0 :: rest).length :=
        Nat.mod_lt _ (by simp)
      have hget : (kv0 :: rest).getD (pick % (kv0 :: rest).length) (0, {}) ∈ kv0 :: rest := by
        rw [List.getD_eq_get _ _ hlt]
        exact List.get_mem _ _ _
      rw [← hfew] at hget
      have hmm := chosenFew_mem p.workers _ _ hget
      rw [hfew] at hmm
      refine ⟨((kv0 :: rest).getD (pick % (kv0 :: rest).length) (0, {})).2,
        ?_, hmm.2.1, ?_⟩
      · rw [← h]
        simpa using hmm.1
      · intro kv hmem hact
        rw [hmm.2.2]
        exact minConcurrentFold_le_active p.workers 9999999 kv hmem hact

/-- An uncapped pool with one idle active worker. -/
def idlePool : WorkerPool :=
  { num_active_requests := 0, workers := [(5, wActive)] }

/-- Witness for `delegateRequest_least_loaded` on a one-active-worker pool:
the request is dispatched, not rejected with 503. -/
theorem delegateRequest_least_loaded_witness :
    ¬ ((Pool.delegateRequest idlePool webArgs "r3" 0).2.1 =
        DispatchOutcome.rejected503) := by
  have h := (delegateRequest_least_loaded idlePool webArgs "r3" 0 (by decide)).1
  intro hc
  have := h.mp hc (5, wActive) (by simp [idlePool]) (by decide)
  exact absurd this (by decide)

/-! ## Association-list lemmas for the counter invariant (C6) -/

theorem alookup_aset_self {α β : Type} [DecidableEq α]
    (l : List (α × β)) (k : α) (v : β) : alookup (aset l k v) k = some v := by
  induction l with
  | nil => simp [aset, alookup]
  | cons hd t ih =>
    obtain ⟨k0, v0⟩ := hd
    rw [aset]
    by_cases h : k0 = k
    · simp [h, alookup]
    · simp only [h, if_false]
      rw [alookup]
      simp [h, ih]

theorem alookup_some_mem {α β : Type} [DecidableEq α]
    (l : List (α × β)) (k : α) (v : β) (h : alookup l k = some v) : (k, v) ∈ l := by
  induction l with
  | nil => simp [alookup] at h
  | cons hd t ih =>
    obtain ⟨k0, v0⟩ := hd
    by_cases hk : k0 = k
    · subst hk
      rw [alookup, if_pos rfl] at h
      injection h with hv
      rw [← hv]
      exact List.mem_cons_self _ _
    · rw [alookup, if_neg hk] at h
      exact List.mem_cons_of_mem _ (ih h)

theorem mem_aset {α β : Type} [DecidableEq α]
    (l : List (α × β)) (k : α) (v : β) (kv : α × β) (h : kv ∈ aset l k v) :
    kv = (k, v) ∨ kv ∈ l := by
  induction l with
  | nil => simpa [aset] using h
  | cons hd t ih =>
    obtain ⟨k0, v0⟩ := hd
    rw [aset] at h
    by_cases hk : k0 = k
    · rw [if_pos hk] at h
      rcases List.mem_cons.mp h with h | h
      · left; exact h
      · right; exact List.mem_cons_of_mem _ h
    · rw [if_neg hk] at h
      rcases List.mem_cons.mp h with h | h
      · right; rw [h]; exact List.mem_cons_self _ _
      · rcases ih h with h | h
        · left; exact h
        · right; exact List.mem_cons_of_mem _ h

theorem mem_aerase {α β : Type} [DecidableEq α]
    (l : List (α × β)) (k : α) (kv : α × β) (h : kv ∈ aerase l k) : kv ∈ l := by
  induction l with
  | nil => simpa [aerase] using h
  | cons hd t ih =>
    obtain ⟨k0, v0⟩ := hd
    rw [aerase] at h
    by_cases hk : k0 = k
    · rw [if_pos hk] at h
      exact List.mem_cons_of_mem _ h
    · rw [if_neg hk] at h
      rcases List.mem_cons.mp h with h | h
      · rw [h]; exact List.mem_cons_self _ _
      · exact List.mem_cons_of_mem _ (ih h)

theorem length_aset_present {α β : Type} [DecidableEq α]
    (l : List (α × β)) (k : α) (v0 v : β) (h : alookup l k = some v0) :
    (aset l k v).length = l.length := by
  induction l with
  | nil => simp [alookup] at h
  | cons hd t ih =>
    obtain ⟨k0, w0⟩ := hd
    rw [alookup] at h
    rw [aset]
    by_cases hk : k0 = k
    · simp [hk]
    · rw [if_neg hk] at h
      simp only [hk, if_false, List.length_cons]
      rw [ih h]

theorem length_aerase_present {α β : Type} [DecidableEq α]
    (l : List (α × β)) (k : α) (v0 : β) (h : alookup l k = some v0) :
    (aerase l k).length + 1 = l.length := by
  induction l with
  | nil => simp [alookup] at h
  | cons hd t ih =>
    obtain ⟨k0, w0⟩ := hd
    rw [alookup] at h
    rw [aerase]
    by_cases hk : k0 = k
    · simp [hk]
    · rw [if_neg hk] at h
      simp only [hk, if_false, List.length_cons]
      rw [← ih h]

theorem aset_absent {α β : Type} [DecidableEq α]
    (l : List (α × β)) (k : α) (v : β) (h : alookup l k = none) :
    aset l k v = l ++ [(k, v)] := by
  induction l with
  | nil => simp [aset]
  | cons hd t ih =>
    obtain ⟨k0, v0⟩ := hd
    rw [alookup] at h
    rw [aset]
    by_cases hk : k0 = k
    · rw [if_pos hk] at h
      simp at h
    · rw [if_neg hk] at h
      simp [hk, ih h]

theorem alookup_none_not_mem_keys {α β : Type} [DecidableEq α]
    (l : List (α × β)) (k : α) (h : alookup l k = none) : k ∉ l.map Prod.fst := by
  induction l with
  | nil => simp
  | cons hd t ih =>
    obtain ⟨k0, v0⟩ := hd
    rw [alookup] at h
    by_cases hk : k0 = k
    · rw [if_pos hk] at h; simp at h
    · rw [if_neg hk] at h
      simp only [List.map_cons, List.mem_cons]
      rintro (rfl | hm)
      · exact hk rfl
      · exact ih h hm

theorem mem_nodup_alookup {α β : Type} [DecidableEq α]
    (l : List (α × β)) (k : α) (v : β) (hn : (l.map Prod.fst).Nodup)
    (h : (k, v) ∈ l) : alookup l k = some v := by
  induction l with
  | nil => simp at h
  | cons hd t ih =>
    obtain ⟨k0, v0⟩ := hd
    simp only [List.map_cons, List.nodup_cons] at hn
    rcases List.mem_cons.mp h with heq | hm
    · cases heq
      rw [alookup, if_pos rfl]
    · rw [alookup]
      by_cases hk : k0 = k
      · exfalso
        apply hn.1
        rw [hk]
        exact List.mem_map.mpr ⟨(k, v), hm, rfl⟩
      · rw [if_neg hk]
        exact ih hn.2 hm

theorem keys_aset_present {α β : Type} [DecidableEq α]
    (l : List (α × β)) (k : α) (v0 v : β) (h : alookup l k = some v0) :
    (aset l k v).map Prod.fst = l.map Prod.fst := by
  induction l with
  | nil => simp [alookup] at h
  | cons hd t ih =>
    obtain ⟨k0, w0⟩ := hd
    rw [alookup] at h
    rw [aset]
    by_cases hk : k0 = k
    · simp [hk]
    · rw [if_neg hk] at h
      simp only [hk, if_false, List.map_cons]
      rw [ih h]

theorem nodup_keys_aerase {α β : Type} [DecidableEq α]
    (l : List (α × β)) (k : α) (hn : (l.map Prod.fst).Nodup) :
    ((aerase l k).map Prod.fst).Nodup := by
  induction l with
  | nil => simp [aerase]
  | cons hd t ih =>
    obtain ⟨k0, v0⟩ := hd
    simp only [List.map_cons, List.nodup_cons] at hn
    rw [aerase]
    by_cases hk : k0 = k
    · simp [hk, hn.2]
    · simp only [hk, if_false, List.map_cons, List.nodup_cons]
      refine ⟨?_, ih hn.2⟩
      intro hm
      apply hn.1
      rcases List.mem_map.mp hm with ⟨kv, hkv, hfst⟩
      exact List.mem_map.mpr ⟨kv, mem_aerase t k kv hkv, hfst⟩

/-- Sum of per-proxy active-request counters over a worker list. -/
def sumActive (l : List (Nat × WorkerProxy)) : Nat :=
  (l.map (fun kv => kv.2.num_active_requests)).sum

/-- Sum of per-proxy active-request counters over the `active` and `maint`
workers only (the quantity named by the claim). -/
def sumActiveMaint (l : List (Nat × WorkerProxy)) : Nat :=
  ((l.filter (fun kv => kv.2.state = WState.active ∨ kv.2.state = WState.maint)).map
    (fun kv => kv.2.num_active_requests)).sum

theorem sumActive_aset_present (l : List (Nat × WorkerProxy)) (k : Nat)
    (w0 w1 : WorkerProxy) (h : alookup l k = some w0) :
    sumActive (aset l k w1) + w0.num_active_requests
      = sumActive l + w1.num_active_requests := by
  induction l with
  | nil => simp [alookup] at h
  | cons hd t ih =>
    obtain ⟨k0, v0⟩ := hd
    by_cases hk : k0 = k
    · subst hk
      rw [alookup, if_pos rfl] at h
      injection h with hv
      subst hv
      rw [aset, if_pos rfl]
      simp only [sumActive, List.map_cons, List.sum_cons]
      omega
    · rw [alookup, if_neg hk] at h
      rw [aset, if_neg hk]
      have := ih h
      simp only [sumActive, List.map_cons, List.sum_cons] at this ⊢
      omega

theorem sumActive_aset_absent (l : List (Nat × WorkerProxy)) (k : Nat)
    (w1 : WorkerProxy) (h : alookup l k = none) :
    sumActive (aset l k w1) = sumActive l + w1.num_active_requests := by
  rw [aset_absent l k w1 h]
  simp [sumActive]

theorem sumActive_aerase (l : List (Nat × WorkerProxy)) (k : Nat)
    (w0 : WorkerProxy) (h : alookup l k = some w0) :
    sumActive (aerase l k) + w0.num_active_requests = sumActive l := by
  induction l with
  | nil => simp [alookup] at h
  | cons hd t ih =>
    obtain ⟨k0, v0⟩ := hd
    by_cases hk : k0 = k
    · subst hk
      rw [alookup, if_pos rfl] at h
      injection h with hv
      subst hv
      rw [aerase, if_pos rfl]
      simp only [sumActive, List.map_cons, List.sum_cons]
      omega
    · rw [alookup, if_neg hk] at h
      rw [aerase, if_neg hk]
      have := ih h
      simp only [sumActive, List.map_cons, List.sum_cons] at this ⊢
      omega

theorem sumActive_ge_mem (l : List (Nat × WorkerProxy)) (kv : Nat × WorkerProxy)
    (h : kv ∈ l) : kv.2.num_active_requests ≤ sumActive l := by
  induction l with
  | nil => simp at h
  | cons hd t ih =>
    rcases List.mem_cons.mp h with heq | hm
    · subst heq
      simp only [sumActive, List.map_cons, List.sum_cons]
      omega
    · have := ih hm
      simp only [sumActive, List.map_cons, List.sum_cons] at this ⊢
      omega

/-! ## Counter balance of the proxy operations -/

/-- `handleChildResponse` on a plain response whose id is the head of the
pending table removes exactly that head entry, decrements the counter once,
and fires the callback. -/
theorem hcr_abort_head (w : WorkerProxy) (k : String) (pr : PendingReq)
    (tl : List (String × PendingReq)) (hreq : w.requests = (k, pr) :: tl)
    (st : Option String) :
    handleChildResponse w (CFrame.response { id := k, status := st }) =
    { w := { w with
        requests := tl,
        num_requests_served := w.num_requests_served + 1,
        num_active_requests := w.num_active_requests - 1 },
      outs := [Output.callback k (st.getD "200 OK")], poolDec := 1, stats := [] } := by
  simp [handleChildResponse, hreq, alookup, aset, aerase]

/-- Counter balance of `handleChildResponse`: the proxy-counter decrement
and the pool-counter decrement move in lockstep, and the counter keeps
matching the size of the pending table. -/
theorem hcr_balance (w : WorkerProxy) (f : CFrame)
    (hw : w.num_active_requests = w.requests.length) :
    (handleChildResponse w f).w.num_active_requests + (handleChildResponse w f).poolDec
      = w.num_active_requests
    ∧ (handleChildResponse w f).w.num_active_requests
      = (handleChildResponse w f).w.requests.length := by
  cases f with
  | startupComplete => exact ⟨rfl, hw⟩
  | maintComplete => exact ⟨rfl, hw⟩
  | message => exact ⟨rfl, hw⟩
  | internal => exact ⟨rfl, hw⟩
  | response d =>
    simp only [handleChildResponse]
    cases hl : alookup w.requests d.id with
    | none => exact ⟨rfl, hw⟩
    | some req =>
      have hmem := alookup_some_mem _ _ _ hl
      have hpos : 0 < w.requests.length := List.length_pos.mpr (List.ne_nil_of_mem hmem)
      have hlenset : (aset w.requests d.id { req with timer := false }).length
          = w.requests.length := length_aset_present _ _ _ _ hl
      have hlk : alookup (aset w.requests d.id { req with timer := false }) d.id
          = some { req with timer := false } := alookup_aset_self _ _ _
      have hlenerase : (aerase (aset w.requests d.id { req with timer := false }) d.id).length + 1
          = (aset w.requests d.id { req with timer := false }).length :=
        length_aerase_present _ _ _ hlk
      have hposn : 0 < w.num_active_requests := by
        rw [hw]
        exact List.length_pos.mpr (List.ne_nil_of_mem (alookup_some_mem _ _ _ hl))
      cases d.rtype with
      | file =>
        refine ⟨rfl, ?_⟩
        dsimp only
        rw [hlenset]
        exact hw
      | plain => dsimp only; constructor <;> omega
      | buffer => dsimp only; constructor <;> omega
      | stream => dsimp only; constructor <;> omega
      | passthrough => dsimp only; constructor <;> omega
      | json => dsimp only; constructor <;> omega

/-- Counter balance of the `abortAllRequests` loop, for an id list that
matches the pending table's keys in order: the callbacks fired and the pool
decrements stay in lockstep with the proxy counter, and when the loop
completes without throwing the pending table is empty. -/
theorem abortGo_balance (ids : List String) (w : WorkerProxy)
    (outs : List Output) (dec0 : Nat)
    (hids : ids = w.requests.map Prod.fst)
    (hw : w.num_active_requests = w.requests.length) :
    (abortAllRequestsGo w ids outs dec0).w.num_active_requests
        + (abortAllRequestsGo w ids outs dec0).poolDec
      = w.num_active_requests + dec0
    ∧ (abortAllRequestsGo w ids outs dec0).w.num_active_requests
      = (abortAllRequestsGo w ids outs dec0).w.requests.length
    ∧ ((abortAllRequestsGo w ids outs dec0).threw = false →
        (abortAllRequestsGo w ids outs dec0).w.requests = []) := by
  induction ids generalizing w outs dec0 with
  | nil =>
    have hreq : w.requests = [] := by
      cases hr : w.requests with
      | nil => rfl
      | cons a b => rw [hr] at hids; simp at hids
    rw [abortAllRequestsGo]
    refine ⟨by simp, ?_, fun _ => rfl⟩
    dsimp only
    rw [hw, hreq]
  | cons id rest ih =>
    cases hr : w.requests with
    | nil => rw [hr] at hids; simp at hids
    | cons hd tl =>
      obtain ⟨k, pr⟩ := hd
      rw [hr] at hids
      simp only [List.map_cons, List.cons.injEq] at hids
      obtain ⟨hk, hrest⟩ := hids
      subst hk
      have hlook : alookup w.requests id = some pr := by
        rw [hr, alookup, if_pos rfl]
      rw [abortAllRequestsGo, hlook]
      simp only
      by_cases hc : pr.args.isCustom
      · simp only [hc, if_true]
        exact ⟨trivial, hw, by intro h; simp at h⟩
      · simp only [hc, if_false, Bool.false_eq_true]
        rw [hcr_abort_head w id pr tl hr]
        dsimp only
        have hw1 : w.num_active_requests - 1 = tl.length := by
          rw [hw, hr]
          simp
        have hpos : 0 < w.num_active_requests := by
          rw [hw, hr]; simp
        have hrec := ih { w with
            requests := tl,
            num_requests_served := w.num_requests_served + 1,
            num_active_requests := w.num_active_requests - 1 }
          (outs ++ Output.logErrorOut "500" ("Aborted request: " ++ pr.args.url)
            :: [Output.callback id ((some "500 Internal Server Error").getD "200 OK")])
          (dec0 + 1) (by dsimp only; exact hrest) (by dsimp only; exact hw1)
        dsimp only at hrec
        obtain ⟨h1, h2, h3⟩ := hrec
        refine ⟨by omega, h2, h3⟩

theorem doShutdown_preserves (w : WorkerProxy) :
    (WorkerProxy.doShutdown w).1.num_active_requests = w.num_active_requests
    ∧ (WorkerProxy.doShutdown w).1.requests = w.requests := by
  unfold WorkerProxy.doShutdown
  split <;> exact ⟨rfl, rfl⟩

theorem hct_balance (w : WorkerProxy) (id : String)
    (hw : w.num_active_requests = w.requests.length) :
    (handleChildTimeout w id).w.num_active_requests + (handleChildTimeout w id).poolDec
      = w.num_active_requests
    ∧ (handleChildTimeout w id).w.num_active_requests
      = (handleChildTimeout w id).w.requests.length := by
  simp only [handleChildTimeout]
  cases hl : alookup w.requests id with
  | none => exact ⟨by simp, hw⟩
  | some req =>
    dsimp only
    have hw1 : ({ w with requests := aset w.requests id { req with timer := false } }
        : WorkerProxy).num_active_requests
        = ({ w with requests := aset w.requests id { req with timer := false } }
        : WorkerProxy).requests.length := by
      dsimp only
      rw [length_aset_present _ _ _ _ hl]
      exact hw
    have h := hcr_balance _ (CFrame.response
      { id := id, status := some "504 Gateway Timeout" }) hw1
    exact ⟨h.1, h.2⟩

/-- Counter balance of every proxy event: pool-counter movements mirror the
proxy counter, the proxy counter always matches the pending-table size, and
a proxy removed from the pool has no active requests left.  The freshness
hypothesis mirrors the uniqueness of manager-generated request ids. -/
theorem proxyStep_balance (cfg : PoolConfig) (w : WorkerProxy) (e : ProxyEvent)
    (hw : w.num_active_requests = w.requests.length)
    (hfr : ∀ args newId, e = ProxyEvent.delegateCmd args newId →
      alookup w.requests newId = none) :
    (proxyStep cfg w e).w.num_active_requests + (proxyStep cfg w e).poolDec
      = w.num_active_requests + (proxyStep cfg w e).poolInc
    ∧ (proxyStep cfg w e).w.num_active_requests
      = (proxyStep cfg w e).w.requests.length
    ∧ ((proxyStep cfg w e).removeFromPool = true →
        (proxyStep cfg w e).w.num_active_requests = 0) := by
  cases e with
  | frame f =>
    cases f with
    | startupComplete =>
      simp only [proxyStep, onChildFrame]
      by_cases hs : w.started
      · simp only [hs, if_true, HCROut.toStep]
        have h := hcr_balance w CFrame.startupComplete hw
        exact ⟨h.1, h.2.symm ▸ h.2, by simp⟩
      · simp only [hs, if_false, Bool.false_eq_true]
        exact ⟨trivial, hw, by simp⟩
    | maintComplete =>
      simp only [proxyStep, onChildFrame, HCROut.toStep]
      have h := hcr_balance w CFrame.maintComplete hw
      exact ⟨h.1, h.2, by simp⟩
    | message =>
      simp only [proxyStep, onChildFrame, HCROut.toStep]
      have h := hcr_balance w CFrame.message hw
      exact ⟨h.1, h.2, by simp⟩
    | internal =>
      simp only [proxyStep, onChildFrame, HCROut.toStep]
      have h := hcr_balance w CFrame.internal hw
      exact ⟨h.1, h.2, by simp⟩
    | response d =>
      simp only [proxyStep, onChildFrame, HCROut.toStep]
      have h := hcr_balance w (CFrame.response d) hw
      exact ⟨h.1, h.2, by simp⟩
  | reqTimeout id =>
    simp only [proxyStep]
    split
    · simp only [HCROut.toStep]
      have h := hct_balance w id hw
      exact ⟨h.1, h.2, by simp⟩
    · exact ⟨rfl, hw, by simp [stepOfPair]⟩
  | maintTimerFire =>
    simp only [proxyStep]
    split
    · obtain ⟨h1, h2⟩ := doShutdown_preserves w
      refine ⟨?_, ?_, by simp [stepOfPair]⟩
      · simp only [stepOfPair]
        omega
      · simp only [stepOfPair]
        rw [h1, h2]
        exact hw
    · exact ⟨rfl, hw, by simp [stepOfPair]⟩
  | killTimerFire =>
    simp only [proxyStep]
    split
    · exact ⟨rfl, hw, by simp [stepOfPair]⟩
    · exact ⟨rfl, hw, by simp [stepOfPair]⟩
  | startupTimerFire =>
    simp only [proxyStep]
    split
    · exact ⟨rfl, hw, by simp [stepOfPair]⟩
    · exact ⟨rfl, hw, by simp [stepOfPair]⟩
  | statDone d ok =>
    simp only [proxyStep, HCROut.toStep, statResultStep]
    split
    · have h := hcr_balance w (CFrame.response { d with rtype := RType.stream }) hw
      exact ⟨h.1, h.2, by simp⟩
    · exact ⟨rfl, hw, by simp⟩
  | childExit =>
    simp only [proxyStep, onChildExit, abortAllRequests]
    obtain ⟨h1, h2, h3⟩ := abortGo_balance _
      { w with shut := true, state := WState.shutdown, child_exited := true } [] 0 rfl hw
    split
    · exact ⟨by dsimp only at h1 ⊢; omega, h2, by simp⟩
    · rename_i hnothrew
      refine ⟨by dsimp only at h1 ⊢; omega, h2, ?_⟩
      intro _
      rw [h2]
      rw [h3 (by simpa using hnothrew)]
      rfl
  | childErr =>
    simp only [proxyStep, onChildExit, abortAllRequests]
    obtain ⟨h1, h2, h3⟩ := abortGo_balance _
      { w with shut := true, state := WState.shutdown, child_exited := true } [] 0 rfl hw
    split
    · exact ⟨by dsimp only at h1 ⊢; omega, h2, by simp⟩
    · rename_i hnothrew
      refine ⟨by dsimp only at h1 ⊢; omega, h2, ?_⟩
      intro _
      rw [h2]
      rw [h3 (by simpa using hnothrew)]
      rfl
  | shutdownCmd =>
    simp only [proxyStep, stepOfPair]
    obtain ⟨h1, h2⟩ := doShutdown_preserves w
    refine ⟨by omega, by rw [h1, h2]; exact hw, by simp⟩
  | maintCmd =>
    simp only [proxyStep]
    split
    · exact ⟨rfl, hw, by simp [stepOfPair]⟩
    · exact ⟨rfl, hw, by simp [stepOfPair]⟩
  | delegateCmd args newId =>
    have hfr2 := hfr args newId rfl
    simp only [proxyStep, WorkerProxy.delegateRequest]
    refine ⟨trivial, ?_, by simp⟩
    rw [aset_absent _ _ _ hfr2]
    simp [hw]

/-! ## The pool-counter invariant (C6) -/

/-- Invariant parts over a counter value and a worker list: the pool counter
equals the sum of all per-proxy counters; every proxy counter matches its
pending-table size; worker pids are unique (JS objects cannot hold duplicate
keys). -/
def invParts (num : Nat) (l : List (Nat × WorkerProxy)) : Prop :=
  num = sumActive l
  ∧ (∀ kv ∈ l, kv.2.num_active_requests = kv.2.requests.length)
  ∧ (l.map Prod.fst).Nodup

/-- The pool-level counter invariant. -/
def PoolInv (p : WorkerPool) : Prop :=
  invParts p.num_active_requests p.workers

instance (num : Nat) (l : List (Nat × WorkerProxy)) : Decidable (invParts num l) := by
  unfold invParts
  infer_instance

theorem invParts_set (num : Nat) (l : List (Nat × WorkerProxy)) (pid : Nat)
    (w neww : WorkerProxy) (inc dec : Nat)
    (h : invParts num l) (hl : alookup l pid = some w)
    (hbal : neww.num_active_requests + dec = w.num_active_requests + inc)
    (hlen : neww.num_active_requests = neww.requests.length) :
    invParts (num + inc - dec) (aset l pid neww) := by
  obtain ⟨hsum, hok, hnd⟩ := h
  have hset := sumActive_aset_present l pid w neww hl
  have hge := sumActive_ge_mem l (pid, w) (alookup_some_mem l pid w hl)
  refine ⟨by simp only at hge; omega, ?_, ?_⟩
  · intro kv hkv
    rcases mem_aset l pid neww kv hkv with heq | hm
    · rw [heq]; exact hlen
    · exact hok kv hm
  · rw [keys_aset_present l pid w neww hl]
    exact hnd

theorem invParts_set_erase (num : Nat) (l : List (Nat × WorkerProxy)) (pid : Nat)
    (w neww : WorkerProxy) (inc dec : Nat)
    (h : invParts num l) (hl : alookup l pid = some w)
    (hbal : neww.num_active_requests + dec = w.num_active_requests + inc)
    (hlen : neww.num_active_requests = neww.requests.length)
    (hzero : neww.num_active_requests = 0) :
    invParts (num + inc - dec) (aerase (aset l pid neww) pid) := by
  obtain ⟨hsum1, hok1, hnd1⟩ := invParts_set num l pid w neww inc dec h hl hbal hlen
  have hl2 : alookup (aset l pid neww) pid = some neww := alookup_aset_self l pid neww
  have herase := sumActive_aerase (aset l pid neww) pid neww hl2
  refine ⟨by omega, ?_, nodup_keys_aerase _ _ hnd1⟩
  intro kv hkv
  exact hok1 kv (mem_aerase _ _ _ hkv)

theorem alookup_of_no_key {α β : Type} [DecidableEq α]
    (l : List (α × β)) (k : α) (h : ∀ kv ∈ l, kv.1 ≠ k) : alookup l k = none := by
  cases hl : alookup l k with
  | none => rfl
  | some v => exact absurd rfl (h (k, v) (alookup_some_mem l k v hl))

theorem sumActive_mapSnd (l : List (Nat × WorkerProxy))
    (g : Nat × WorkerProxy → WorkerProxy)
    (hg : ∀ kv, (g kv).num_active_requests = kv.2.num_active_requests) :
    sumActive (l.map (fun kv => (kv.1, g kv))) = sumActive l := by
  induction l with
  | nil => rfl
  | cons hd t ih =>
    simp only [sumActive, List.map_cons, List.sum_cons] at ih ⊢
    rw [hg hd, ih]

theorem invParts_mapSnd (num : Nat) (l : List (Nat × WorkerProxy))
    (g : Nat × WorkerProxy → WorkerProxy)
    (hg : ∀ kv, (g kv).num_active_requests = kv.2.num_active_requests)
    (hgr : ∀ kv, (g kv).requests = kv.2.requests)
    (h : invParts num l) :
    invParts num (l.map (fun kv => (kv.1, g kv))) := by
  obtain ⟨hsum, hok, hnd⟩ := h
  refine ⟨by rw [sumActive_mapSnd l g hg]; exact hsum, ?_, ?_⟩
  · intro kv hkv
    rcases List.mem_map.mp hkv with ⟨kv0, hkv0, heq⟩
    rw [← heq]
    simp only [hg, hgr]
    exact hok kv0 hkv0
  · have : (l.map (fun kv => (kv.1, g kv))).map Prod.fst = l.map Prod.fst := by
      simp
    rw [this]
    exact hnd

/-- Spawn outcomes that can actually occur against a given pool: the OS
never hands out a pid already present in the pool, and a pid-0 slot (a
previously failed spawn) never carries pending requests. -/
def spawnFresh (p : WorkerPool) : SpawnOutcome → Prop
  | SpawnOutcome.ok pid => ∀ kv ∈ p.workers, kv.1 ≠ pid
  | SpawnOutcome.fail => ∀ kv ∈ p.workers, kv.1 = 0 →
      kv.2.num_active_requests = 0 ∧ kv.2.requests = []

/-- Event side conditions: request ids generated by the manager are fresh,
and spawn outcomes are fresh in the sense above. -/
def evWellFormed (p : WorkerPool) : PoolEvent → Prop
  | PoolEvent.evDelegate _ newId _ =>
      ∀ kv ∈ p.workers, alookup kv.2.requests newId = none
  | PoolEvent.evWorker _ (ProxyEvent.delegateCmd _ newId) =>
      ∀ kv ∈ p.workers, alookup kv.2.requests newId = none
  | PoolEvent.evTick _ sp => spawnFresh p sp
  | PoolEvent.evAddWorker sp _ => spawnFresh p sp
  | _ => True

theorem newWorkerProxy_count (cfg : PoolConfig) (sp : SpawnOutcome) (now : Nat) :
    (newWorkerProxy cfg sp now).num_active_requests = 0 := by
  cases sp <;> rfl

theorem newWorkerProxy_requests (cfg : PoolConfig) (sp : SpawnOutcome) (now : Nat) :
    (newWorkerProxy cfg sp now).requests = [] := by
  cases sp <;> rfl

theorem invParts_set_zero (num : Nat) (l : List (Nat × WorkerProxy)) (k : Nat)
    (nw : WorkerProxy) (h : invParts num l)
    (hc : nw.num_active_requests = 0) (hr : nw.requests = [])
    (hz : ∀ v, alookup l k = some v → v.num_active_requests = 0) :
    invParts num (aset l k nw) := by
  obtain ⟨hsum, hok, hnd⟩ := h
  cases hl : alookup l k with
  | none =>
    rw [aset_absent l k nw hl]
    refine ⟨?_, ?_, ?_⟩
    · rw [hsum]
      simp [sumActive, hc]
    · intro kv hkv
      rcases List.mem_append.mp hkv with hm | hm
      · exact hok kv hm
      · simp only [List.mem_singleton] at hm
        rw [hm]
        simp [hc, hr]
    · rw [List.map_append]
      simp only [List.map_cons, List.map_nil]
      rw [List.nodup_append]
      refine ⟨hnd, List.nodup_singleton _, ?_⟩
      intro a ha hb
      simp only [List.mem_singleton] at hb
      rw [hb] at ha
      exact alookup_none_not_mem_keys l k hl ha
  | some v =>
    have hs := invParts_set num l k v nw 0 0 ⟨hsum, hok, hnd⟩ hl
      (by rw [hc, hz v hl]) (by rw [hc, hr]; rfl)
    simpa using hs

instance (p : WorkerPool) : Decidable (PoolInv p) := by
  unfold PoolInv
  infer_instance

instance (p : WorkerPool) (sp : SpawnOutcome) : Decidable (spawnFresh p sp) := by
  cases sp <;> unfold spawnFresh <;> infer_instance

instance (p : WorkerPool) (ev : PoolEvent) : Decidable (evWellFormed p ev) := by
  unfold evWellFormed
  cases ev with
  | evDelegate a b c => infer_instance
  | evWorker pid e => cases e <;> infer_instance
  | evTick a b => infer_instance
  | evAddWorker a b => infer_instance
  | evShutdownAll => infer_instance
  | evRequestMaint => infer_instance
  | evRequestRestart => infer_instance
  | evSendMessage => infer_instance

theorem addWorker_invParts (num : Nat) (l : List (Nat × WorkerProxy))
    (cfg : PoolConfig) (sp : SpawnOutcome) (now : Nat)
    (h : invParts num l)
    (hfresh : match sp with
      | SpawnOutcome.ok pid => ∀ kv ∈ l, kv.1 ≠ pid
      | SpawnOutcome.fail => ∀ kv ∈ l, kv.1 = 0 →
          kv.2.num_active_requests = 0 ∧ kv.2.requests = []) :
    invParts num (aset l (newWorkerProxy cfg sp now).pid (newWorkerProxy cfg sp now)) := by
  apply invParts_set_zero num l _ _ h (newWorkerProxy_count cfg sp now)
    (newWorkerProxy_requests cfg sp now)
  intro v hv
  cases sp with
  | ok pid =>
    exact absurd rfl (hfresh (pid, v) (alookup_some_mem _ _ _ hv))
  | fail =>
    exact (hfresh (0, v) (alookup_some_mem _ _ _ hv) rfl).1

theorem doShutdown_count (w : WorkerProxy) :
    (WorkerProxy.doShutdown w).1.num_active_requests = w.num_active_requests :=
  (doShutdown_preserves w).1

theorem doShutdown_requests (w : WorkerProxy) :
    (WorkerProxy.doShutdown w).1.requests = w.requests :=
  (doShutdown_preserves w).2

theorem maintDecision_preserves (cfg : PoolConfig) (w : WorkerProxy) (now : Nat) :
    (maintDecision cfg w now).1.num_active_requests = w.num_active_requests
    ∧ (maintDecision cfg w now).1.requests = w.requests
    ∧ (maintDecision cfg w now).1.state = w.state := by
  unfold maintDecision
  dsimp only
  repeat' split
  all_goals exact ⟨rfl, rfl, rfl⟩

theorem maintDecision_count (cfg : PoolConfig) (w : WorkerProxy) (now : Nat) :
    (maintDecision cfg w now).1.num_active_requests = w.num_active_requests :=
  (maintDecision_preserves cfg w now).1

theorem maintDecision_requests (cfg : PoolConfig) (w : WorkerProxy) (now : Nat) :
    (maintDecision cfg w now).1.requests = w.requests :=
  (maintDecision_preserves cfg w now).2.1

theorem tickFocusActions_preserves (cfg : PoolConfig) (w : WorkerProxy)
    (s : TickStates) (now : Nat) :
    (tickFocusActions cfg w s now).w.num_active_requests = w.num_active_requests
    ∧ (tickFocusActions cfg w s now).w.requests = w.requests := by
  unfold tickFocusActions tickRestartPhase tickMaintPhase
  dsimp only
  repeat' split
  all_goals constructor
  all_goals simp [doShutdown_count, doShutdown_requests, maintDecision_count,
    maintDecision_requests, WorkerProxy.doMaint]

/-- The focus phase of `tick` preserves the invariant, the pool counter and
the config, and only rewrites one worker in a count- and table-preserving
way. -/
theorem tickFocus_inv (p : WorkerPool) (now : Nat) (h : PoolInv p) :
    PoolInv (tickFocus p now).1
    ∧ (tickFocus p now).1.num_active_requests = p.num_active_requests
    ∧ (tickFocus p now).1.config = p.config
    ∧ (∀ kv ∈ (tickFocus p now).1.workers, ∃ kv0 ∈ p.workers, kv.1 = kv0.1
        ∧ kv.2.num_active_requests = kv0.2.num_active_requests
        ∧ kv.2.requests = kv0.2.requests) := by
  obtain ⟨hsum, hok, hnd⟩ := h
  unfold tickFocus
  cases hfind : p.workers.find? (fun kv => ¬ p.maint_roll.contains kv.1) with
  | some kv =>
    have hkvmem : kv ∈ p.workers := List.mem_of_find?_eq_some hfind
    have hkvmem2 : (kv.1, kv.2) ∈ p.workers := by simpa using hkvmem
    have hlk : alookup p.workers kv.1 = some kv.2 :=
      mem_nodup_alookup p.workers kv.1 kv.2 hnd hkvmem2
    obtain ⟨hfc, hfr⟩ := tickFocusActions_preserves p.config kv.2 (getStates p) now
    have hinv2 : invParts p.num_active_requests
        (aset p.workers kv.1 (tickFocusActions p.config kv.2 (getStates p) now).w) := by
      have := invParts_set p.num_active_requests p.workers kv.1 kv.2
        (tickFocusActions p.config kv.2 (getStates p) now).w 0 0
        ⟨hsum, hok, hnd⟩ hlk (by omega)
        (by rw [hfc, hfr]; exact hok (kv.1, kv.2) hkvmem2)
      simpa using this
    refine ⟨hinv2, rfl, rfl, ?_⟩
    intro kv2 hkv2
    rcases mem_aset _ _ _ kv2 hkv2 with heq | hm
    · exact ⟨kv, hkvmem, by rw [heq], by rw [heq]; exact hfc, by rw [heq]; exact hfr⟩
    · exact ⟨kv2, hm, rfl, rfl, rfl⟩
  | none =>
    cases hw : p.workers with
    | nil =>
      dsimp only
      rw [hw] at hsum hok hnd
      refine ⟨⟨by simpa using hsum, ?_, ?_⟩, rfl, rfl, ?_⟩
      · intro kv hkv; simp at hkv
      · simpa using hnd
      · intro kv hkv; simp at hkv
    | cons kv rest =>
      dsimp only
      rw [hw] at hsum hok hnd
      have hkvmem : kv ∈ kv :: rest := List.mem_cons_self _ _
      have hkvmem2 : (kv.1, kv.2) ∈ kv :: rest := by simpa using hkvmem
      have hlk : alookup (kv :: rest) kv.1 = some kv.2 :=
        mem_nodup_alookup (kv :: rest) kv.1 kv.2 hnd hkvmem2
      obtain ⟨hfc, hfr⟩ := tickFocusActions_preserves p.config kv.2 (getStates p) now
      have hinv2 : invParts p.num_active_requests
          (aset (kv :: rest) kv.1 (tickFocusActions p.config kv.2 (getStates p) now).w) := by
        have := invParts_set p.num_active_requests (kv :: rest) kv.1 kv.2
          (tickFocusActions p.config kv.2 (getStates p) now).w 0 0
          ⟨hsum, hok, hnd⟩ hlk (by omega)
          (by rw [hfc, hfr]; exact hok (kv.1, kv.2) hkvmem2)
        simpa using this
      refine ⟨hinv2, rfl, rfl, ?_⟩
      intro kv2 hkv2
      rcases mem_aset _ _ _ kv2 hkv2 with heq | hm
      · exact ⟨kv, hkvmem, by rw [heq], by rw [heq]; exact hfc, by rw [heq]; exact hfr⟩
      · exact ⟨kv2, hm, rfl, rfl, rfl⟩

theorem spawnFresh_transfer (p q : WorkerPool) (sp : SpawnOutcome)
    (hmem : ∀ kv ∈ q.workers, ∃ kv0 ∈ p.workers, kv.1 = kv0.1
      ∧ kv.2.num_active_requests = kv0.2.num_active_requests
      ∧ kv.2.requests = kv0.2.requests)
    (h : spawnFresh p sp) : spawnFresh q sp := by
  cases sp with
  | ok pid =>
    intro kv hkv
    obtain ⟨kv0, hkv0, h1, _, _⟩ := hmem kv hkv
    rw [h1]
    exact h kv0 hkv0
  | fail =>
    intro kv hkv hk0
    obtain ⟨kv0, hkv0, h1, h2, h3⟩ := hmem kv hkv
    have := h kv0 hkv0 (by rw [← h1]; exact hk0)
    rw [h2, h3]
    exact this

theorem tickScale_inv (p1 : WorkerPool) (s : TickStates) (sp : SpawnOutcome)
    (now : Nat) (h : PoolInv p1) (hfresh : spawnFresh p1 sp) :
    PoolInv (tickScale p1 s sp now).1 := by
  simp only [tickScale]
  by_cases h1 : numBusyAdj p1 ≥ s.stStartup + s.stActive ∧
      s.stStartup < p1.config.max_concurrent_launches ∧
      totalChildren p1 - s.stShutdown < p1.config.max_children
  · rw [if_pos h1]
    simp only [addWorker]
    apply addWorker_invParts p1.num_active_requests p1.workers p1.config sp now h
    cases sp with
    | ok pid => exact hfresh
    | fail => exact hfresh
  · rw [if_neg h1]
    by_cases h2 : numBusyAdj p1 < s.stActive - 1 ∧ s.stActive > 1 ∧
        totalChildren p1 > p1.config.min_children
    · rw [if_pos h2]
      cases hik : idleKids p1 with
      | nil => exact h
      | cons pid rest =>
        simp only
        cases hlk : alookup p1.workers pid with
        | none => exact h
        | some w =>
          simp only
          have hset := invParts_set p1.num_active_requests p1.workers pid w
            (WorkerProxy.doShutdown w).1 0 0 h hlk
            (by rw [doShutdown_count])
            (by rw [doShutdown_count, doShutdown_requests]
                exact h.2.1 (pid, w) (alookup_some_mem _ _ _ hlk))
          simpa using hset
    · rw [if_neg h2]
      exact h

/-- C6 counterexample, step 1: dispatch one request into the idle pool. -/
def c6pool1 : WorkerPool := (poolStep idlePool (PoolEvent.evDelegate webArgs "r1" 0)).1

/-- C6 counterexample, step 2: `pool.shutdown()` sends `shutdown` to every
worker while the request is still pending. -/
def c6pool2 : WorkerPool := (poolStep c6pool1 PoolEvent.evShutdownAll).1

/-- C6 counterexample: starting from a consistent pool, dispatching one
request and then shutting the pool down leaves
`Pool.num_active_requests = 1` while the sum over `active`/`maint` proxies
is 0 — the proxy holding the pending request is now in `shutdown`.  The
claimed equality fails. -/
theorem shutdown_breaks_activemaint_sum :
    PoolInv idlePool
    ∧ c6pool2.num_active_requests = 1
    ∧ sumActiveMaint c6pool2.workers = 0 := by
  decide

/-- C6 amended: every pool operation preserves the invariant that
`Pool.num_active_requests` equals the sum of `num_active_requests` over ALL
the pool's proxies (a `shutdown` proxy may still hold pending requests and
stays counted), with each proxy counter matching its pending-table size and
pids unique. -/
theorem poolStep_preserves_inv (p : WorkerPool) (ev : PoolEvent)
    (hinv : PoolInv p) (hwf : evWellFormed p ev) :
    PoolInv (poolStep p ev).1 := by
  cases ev with
  | evDelegate args newId pick =>
    simp only [poolStep, Pool.delegateRequest]
    split
    · exact hinv
    · cases hfew : chosenFew p.workers (minConcurrentFold p.workers 9999999) with
      | nil => exact hinv
      | cons kv0 rest =>
        simp only
        have hlt : pick % (kv0 :: rest).length < (kv0 :: rest).length :=
          Nat.mod_lt _ (by simp)
        have hget : (kv0 :: rest).getD (pick % (kv0 :: rest).length) (0, {}) ∈ kv0 :: rest := by
          rw [List.getD_eq_get _ _ hlt]
          exact List.get_mem _ _ _
        rw [← hfew] at hget
        have hmm := chosenFew_mem p.workers _ _ hget
        rw [hfew] at hmm
        have hmem2 : (((kv0 :: rest).getD (pick % (kv0 :: rest).length) (0, {})).1,
            ((kv0 :: rest).getD (pick % (kv0 :: rest).length) (0, {})).2) ∈ p.workers := by
          simpa using hmm.1
        have hlk : alookup p.workers
            ((kv0 :: rest).getD (pick % (kv0 :: rest).length) (0, {})).1
            = some ((kv0 :: rest).getD (pick % (kv0 :: rest).length) (0, {})).2 :=
          mem_nodup_alookup _ _ _ hinv.2.2 hmem2
        have hfr : alookup ((kv0 :: rest).getD (pick % (kv0 :: rest).length) (0, {})).2.requests
            newId = none := hwf _ hmm.1
        have hok := hinv.2.1 _ hmem2
        have hs := invParts_set p.num_active_requests p.workers
          ((kv0 :: rest).getD (pick % (kv0 :: rest).length) (0, {})).1
          ((kv0 :: rest).getD (pick % (kv0 :: rest).length) (0, {})).2
          (WorkerProxy.delegateRequest
            ((kv0 :: rest).getD (pick % (kv0 :: rest).length) (0, {})).2
            p.config args newId).w 1 0 hinv hlk (by simp [WorkerProxy.delegateRequest])
          (by
            simp only [WorkerProxy.delegateRequest]
            rw [aset_absent _ _ _ hfr]
            have hok2 := hok
            dsimp only at hok2
            simp only [List.length_append, List.length_cons, List.length_nil] at hok2 ⊢
            omega)
        exact hs
  | evWorker pid e =>
    simp only [poolStep]
    cases hlk : alookup p.workers pid with
    | none => exact hinv
    | some w =>
      simp only
      have hokw := hinv.2.1 (pid, w) (alookup_some_mem _ _ _ hlk)
      have hfr : ∀ args newId, e = ProxyEvent.delegateCmd args newId →
          alookup w.requests newId = none := by
        intro args newId he
        subst he
        exact hwf (pid, w) (alookup_some_mem _ _ _ hlk)
      obtain ⟨hbal, hlen, hrem⟩ := proxyStep_balance p.config w e hokw hfr
      unfold applyWorkerStep
      split
      · rename_i hremTrue
        exact invParts_set_erase p.num_active_requests p.workers pid w
          (proxyStep p.config w e).w (proxyStep p.config w e).poolInc
          (proxyStep p.config w e).poolDec hinv hlk hbal hlen (hrem hremTrue)
      · exact invParts_set p.num_active_requests p.workers pid w
          (proxyStep p.config w e).w (proxyStep p.config w e).poolInc
          (proxyStep p.config w e).poolDec hinv hlk hbal hlen
  | evTick now sp =>
    simp only [poolStep, tick]
    obtain ⟨h1, h2, h3, h4⟩ := tickFocus_inv p now hinv
    have hf : spawnFresh (tickFocus p now).1 sp := spawnFresh_transfer p _ sp h4 hwf
    exact tickScale_inv _ _ sp now h1 hf
  | evAddWorker sp now =>
    simp only [poolStep, addWorker]
    apply addWorker_invParts p.num_active_requests p.workers p.config sp now hinv
    cases sp with
    | ok pid => exact hwf
    | fail => exact hwf
  | evShutdownAll =>
    simp only [poolStep, shutdownAllWorkers]
    exact invParts_mapSnd _ _ _ (fun kv => doShutdown_count kv.2)
      (fun kv => doShutdown_requests kv.2) hinv
  | evRequestMaint =>
    simp only [poolStep]
    exact invParts_mapSnd _ _ _ (fun kv => rfl) (fun kv => rfl) hinv
  | evRequestRestart =>
    simp only [poolStep]
    exact invParts_mapSnd _ _ _ (fun kv => rfl) (fun kv => rfl) hinv
  | evSendMessage => exact hinv

/-- Witness for `poolStep_preserves_inv` at a concrete pool and event. -/
theorem poolStep_preserves_inv_witness :
    PoolInv (poolStep idlePool (PoolEvent.evDelegate webArgs "r1" 0)).1 :=
  poolStep_preserves_inv idlePool (PoolEvent.evDelegate webArgs "r1" 0)
    (by decide) (by decide)

/-! ## Tick auto-scale analysis (C7) -/

theorem countState_cons (kv : Nat × WorkerProxy) (t : List (Nat × WorkerProxy))
    (st : WState) :
    countState (kv :: t) st
      = (if kv.2.state = st then 1 else 0) + countState t st := by
  unfold countState
  by_cases h : kv.2.state = st <;> simp [h] <;> omega

theorem countState_aset (l : List (Nat × WorkerProxy)) (k : Nat)
    (w0 w1 : WorkerProxy) (st : WState) (h : alookup l k = some w0) :
    countState (aset l k w1) st + (if w0.state = st then 1 else 0)
      = countState l st + (if w1.state = st then 1 else 0) := by
  induction l with
  | nil => simp [alookup] at h
  | cons hd t ih =>
    obtain ⟨k0, v0⟩ := hd
    by_cases hk : k0 = k
    · subst hk
      rw [alookup, if_pos rfl] at h
      injection h with hv
      subst hv
      rw [aset, if_pos rfl, countState_cons, countState_cons]
      dsimp only
      omega
    · rw [alookup, if_neg hk] at h
      rw [aset, if_neg hk, countState_cons, countState_cons]
      have := ih h
      dsimp only
      omega

theorem countState_pos (l : List (Nat × WorkerProxy)) (k : Nat)
    (w : WorkerProxy) (st : WState) (h : alookup l k = some w)
    (hst : w.state = st) : 1 ≤ countState l st := by
  have hm : (k, w) ∈ l.filter (fun kv => kv.2.state = st) :=
    List.mem_filter.mpr ⟨alookup_some_mem _ _ _ h, by simp [hst]⟩
  unfold countState
  exact List.length_pos.mpr (List.ne_nil_of_mem hm)

theorem tickStatesExt (a b : TickStates) (h1 : a.stStartup = b.stStartup)
    (h2 : a.stActive = b.stActive) (h3 : a.stMaint = b.stMaint)
    (h4 : a.stShutdown = b.stShutdown) : a = b := by
  cases a
  cases b
  simp_all

theorem maintDecision_state (cfg : PoolConfig) (w : WorkerProxy) (now : Nat) :
    (maintDecision cfg w now).1.state = w.state :=
  (maintDecision_preserves cfg w now).2.2

theorem maintDecision_hasStream (cfg : PoolConfig) (w : WorkerProxy) (now : Nat) :
    (maintDecision cfg w now).1.hasStream = w.hasStream := by
  unfold maintDecision
  dsimp only
  repeat' split
  all_goals rfl

theorem maintDecision_need_active (cfg : PoolConfig) (w : WorkerProxy) (now : Nat)
    (h : (maintDecision cfg w now).2 = true) : w.state = WState.active := by
  unfold maintDecision at h
  dsimp only at h
  repeat' split at h
  all_goals simp_all

theorem doMaint_state (w : WorkerProxy) (cfg : PoolConfig) :
    (WorkerProxy.doMaint w cfg).1.state = WState.maint := rfl

theorem doShutdown_state (w : WorkerProxy) (h : w.hasStream = true) :
    (WorkerProxy.doShutdown w).1.state = WState.shutdown := by
  unfold WorkerProxy.doShutdown
  rw [if_pos h]

theorem tickMaintPhase_spec (cfg : PoolConfig) (w : WorkerProxy)
    (s : TickStates) (now : Nat) :
    ((tickMaintPhase cfg w s now).w.state = w.state
      ∧ (tickMaintPhase cfg w s now).w.hasStream = w.hasStream
      ∧ (tickMaintPhase cfg w s now).s = s)
    ∨ (w.state = WState.active ∧ 1 < s.stActive
      ∧ (tickMaintPhase cfg w s now).w.state = WState.maint
      ∧ (tickMaintPhase cfg w s now).s
          = { s with stActive := s.stActive - 1, stMaint := s.stMaint + 1 }) := by
  unfold tickMaintPhase
  dsimp only
  by_cases hg : s.stMaint < cfg.max_concurrent_maint ∧ s.stActive > 1
  · rw [if_pos hg]
    by_cases hd : (maintDecision cfg w now).2 = true
    · rw [if_pos hd]
      exact Or.inr ⟨maintDecision_need_active cfg w now hd, hg.2, rfl, rfl⟩
    · rw [if_neg hd]
      exact Or.inl ⟨maintDecision_state cfg w now, maintDecision_hasStream cfg w now, rfl⟩
  · rw [if_neg hg]
    exact Or.inl ⟨rfl, rfl, rfl⟩

theorem tickRestartPhase_spec (cfg : PoolConfig) (mp : FocusOut)
    (hstr : mp.w.state = WState.active → mp.w.hasStream = true) :
    ((tickRestartPhase cfg mp).w.state = mp.w.state
      ∧ (tickRestartPhase cfg mp).s = mp.s)
    ∨ (mp.w.state = WState.active ∧ 1 < mp.s.stActive
      ∧ (tickRestartPhase cfg mp).w.state = WState.shutdown
      ∧ (tickRestartPhase cfg mp).s
          = { mp.s with
              stActive := mp.s.stActive - 1,
              stShutdown := mp.s.stShutdown + 1 }) := by
  unfold tickRestartPhase
  dsimp only
  by_cases hg : mp.s.stStartup + mp.s.stShutdown < cfg.max_concurrent_launches
  · rw [if_pos hg]
    by_cases hr : mp.w.state = WState.active ∧ mp.w.max_requests_per_child > 0 ∧
        mp.s.stActive > 1 ∧ mp.w.num_requests_served ≥ mp.w.max_requests_per_child
    · rw [if_pos hr]
      dsimp only
      have hsd := doShutdown_state mp.w (hstr hr.1)
      rw [if_neg (by rw [hsd]; simp)]
      exact Or.inr ⟨hr.1, hr.2.2.1, hsd, rfl⟩
    · rw [if_neg hr]
      by_cases hrr : mp.w.state = WState.active ∧ mp.w.request_restart = true ∧
          mp.s.stActive > 1
      · rw [if_pos hrr]
        have hsd := doShutdown_state { mp.w with request_restart := false }
          (by dsimp only; exact hstr hrr.1)
        exact Or.inr ⟨hrr.1, hrr.2.2, hsd, rfl⟩
      · rw [if_neg hrr]
        exact Or.inl ⟨rfl, rfl⟩
  · rw [if_neg hg]
    exact Or.inl ⟨rfl, rfl⟩

/-- Combined per-focus-worker state effect: either nothing changes, or an
active focus worker transitions to `maint` or `shutdown` with the matching
bookkeeping adjustment. -/
theorem tickFocusActions_spec (cfg : PoolConfig) (w : WorkerProxy)
    (s : TickStates) (now : Nat)
    (hstr : w.state = WState.active → w.hasStream = true) :
    ((tickFocusActions cfg w s now).w.state = w.state
      ∧ (tickFocusActions cfg w s now).s = s)
    ∨ (w.state = WState.active ∧ 1 < s.stActive
      ∧ ((tickFocusActions cfg w s now).w.state = WState.maint
          ∧ (tickFocusActions cfg w s now).s
            = { s with stActive := s.stActive - 1, stMaint := s.stMaint + 1 }
        ∨ (tickFocusActions cfg w s now).w.state = WState.shutdown
          ∧ (tickFocusActions cfg w s now).s
            = { s with stActive := s.stActive - 1, stShutdown := s.stShutdown + 1 })) := by
  unfold tickFocusActions
  rcases tickMaintPhase_spec cfg w s now with ⟨h1, h2, h3⟩ | ⟨h1, h2, h3, h4⟩
  · rcases tickRestartPhase_spec cfg (tickMaintPhase cfg w s now)
        (by rw [h1, h2]; exact hstr) with ⟨g1, g2⟩ | ⟨g1, g2, g3, g4⟩
    · left
      exact ⟨g1.trans h1, g2.trans h3⟩
    · right
      refine ⟨h1 ▸ g1, ?_, Or.inr ⟨g3, ?_⟩⟩
      · rw [h3] at g2
        exact g2
      · rw [g4]
        apply tickStatesExt <;> simp [h3]
  · rcases tickRestartPhase_spec cfg (tickMaintPhase cfg w s now)
        (by intro hh; rw [h3] at hh; exact absurd hh (by decide))
        with ⟨g1, g2⟩ | ⟨g1, g2, g3, g4⟩
    · right
      exact ⟨h1, h2, Or.inl ⟨g1.trans h3, g2.trans h4⟩⟩
    · exfalso
      rw [h3] at g1
      exact absurd g1 (by decide)

/-- The focus phase's `states` bookkeeping agrees with recounting the
worker states on the updated worker list. -/
theorem focus_recount (cfg : PoolConfig) (l : List (Nat × WorkerProxy))
    (kv : Nat × WorkerProxy) (now : Nat)
    (hlk : alookup l kv.1 = some kv.2)
    (hstr : kv.2.state = WState.active → kv.2.hasStream = true)
    (s : TickStates)
    (hs0 : s.stStartup = countState l WState.startup)
    (hs1 : s.stActive = countState l WState.active)
    (hs2 : s.stMaint = countState l WState.maint)
    (hs3 : s.stShutdown = countState l WState.shutdown) :
    (tickFocusActions cfg kv.2 s now).s = TickStates.mk
      (countState (aset l kv.1 (tickFocusActions cfg kv.2 s now).w) WState.startup)
      (countState (aset l kv.1 (tickFocusActions cfg kv.2 s now).w) WState.active)
      (countState (aset l kv.1 (tickFocusActions cfg kv.2 s now).w) WState.maint)
      (countState (aset l kv.1 (tickFocusActions cfg kv.2 s now).w) WState.shutdown) := by
  have c0 := countState_aset l kv.1 kv.2 (tickFocusActions cfg kv.2 s now).w WState.startup hlk
  have c1 := countState_aset l kv.1 kv.2 (tickFocusActions cfg kv.2 s now).w WState.active hlk
  have c2 := countState_aset l kv.1 kv.2 (tickFocusActions cfg kv.2 s now).w WState.maint hlk
  have c3 := countState_aset l kv.1 kv.2 (tickFocusActions cfg kv.2 s now).w WState.shutdown hlk
  rcases tickFocusActions_spec cfg kv.2 s now hstr with ⟨h1, h2⟩ | ⟨h1, h2, ⟨h3, h4⟩ | ⟨h3, h4⟩⟩
  · rw [h2]
    rw [h1] at c0 c1 c2 c3
    apply tickStatesExt <;> dsimp only <;> omega
  · rw [h4]
    simp only [h1, h3] at c0 c1 c2 c3
    simp at c0 c1 c2 c3
    apply tickStatesExt <;> dsimp only <;> omega
  · rw [h4]
    simp only [h1, h3] at c0 c1 c2 c3
    simp at c0 c1 c2 c3
    apply tickStatesExt <;> dsimp only <;> omega

/-- After the focus phase, tick's adjusted `states` equal the recomputed
per-state counts of the resulting pool. -/
theorem tickFocus_states (p : WorkerPool) (now : Nat)
    (hnd : (p.workers.map Prod.fst).Nodup)
    (hstr : ∀ kv ∈ p.workers, kv.2.state = WState.active → kv.2.hasStream = true) :
    (tickFocus p now).2.1 = getStates (tickFocus p now).1 := by
  unfold tickFocus
  cases hfind : p.workers.find? (fun kv => ¬ p.maint_roll.contains kv.1) with
  | some kv =>
    dsimp only
    have hkvmem : kv ∈ p.workers := List.mem_of_find?_eq_some hfind
    have hlk : alookup p.workers kv.1 = some kv.2 :=
      mem_nodup_alookup p.workers kv.1 kv.2 hnd (by simpa using hkvmem)
    exact focus_recount p.config p.workers kv now hlk
      (fun ha => hstr kv hkvmem ha) (getStates p) rfl rfl rfl rfl
  | none =>
    cases hw : p.workers with
    | nil =>
      dsimp only
      unfold getStates countState
      rw [hw]
    | cons kv rest =>
      dsimp only
      rw [hw] at hnd hstr
      have hkvmem : kv ∈ kv :: rest := List.mem_cons_self _ _
      have hlk : alookup (kv :: rest) kv.1 = some kv.2 :=
        mem_nodup_alookup (kv :: rest) kv.1 kv.2 hnd (by simpa using hkvmem)
      exact focus_recount p.config (kv :: rest) kv now hlk
        (fun ha => hstr kv hkvmem ha) (getStates p)
        (by unfold getStates countState; rw [hw])
        (by unfold getStates countState; rw [hw])
        (by unfold getStates countState; rw [hw])
        (by unfold getStates countState; rw [hw])

/-- An `autoscale` event emitted by the scale phase of `tick`. -/
def isAutoscaleEvent : Output → Bool
  | Output.emitEvent s => s = "autoscale_add" ∨ s = "autoscale_remove"
  | _ => false

/-- Number of auto-scale actions recorded in an output list. -/
def autoscaleCount (outs : List Output) : Nat :=
  (outs.filter isAutoscaleEvent).length

theorem autoscaleCount_append (a b : List Output) :
    autoscaleCount (a ++ b) = autoscaleCount a + autoscaleCount b := by
  simp [autoscaleCount, List.filter_append]

theorem no_autoscale_not_mem (outs : List Output) (s : String)
    (hs : isAutoscaleEvent (Output.emitEvent s) = true)
    (h : autoscaleCount outs = 0) : Output.emitEvent s ∉ outs := by
  intro hm
  have hmem : Output.emitEvent s ∈ outs.filter isAutoscaleEvent :=
    List.mem_filter.2 ⟨hm, hs⟩
  have hpos : 0 < autoscaleCount outs := List.length_pos_of_mem hmem
  omega

theorem doMaint_outs (w : WorkerProxy) (cfg : PoolConfig) :
    autoscaleCount (WorkerProxy.doMaint w cfg).2 = 0 := rfl

theorem doShutdown_outs (w : WorkerProxy) :
    autoscaleCount (WorkerProxy.doShutdown w).2 = 0 := by
  unfold WorkerProxy.doShutdown
  split <;> rfl

theorem addWorker_outs (p : WorkerPool) (sp : SpawnOutcome) (now : Nat) :
    autoscaleCount (addWorker p sp now).2.2 = 0 := by
  cases sp <;> rfl

/-- The focus phase of `tick` performs no auto-scale action. -/
theorem focus_outs_no_autoscale (cfg : PoolConfig) (w : WorkerProxy)
    (s : TickStates) (now : Nat) :
    autoscaleCount (tickFocusActions cfg w s now).outs = 0 := by
  unfold tickFocusActions tickRestartPhase tickMaintPhase
  dsimp only
  repeat' split
  all_goals dsimp only
  all_goals try simp only [autoscaleCount_append, doMaint_outs, doShutdown_outs]
  all_goals decide

theorem tickFocus_outs_no_autoscale (p : WorkerPool) (now : Nat) :
    autoscaleCount (tickFocus p now).2.2 = 0 := by
  unfold tickFocus
  cases hfind : p.workers.find? (fun kv => ¬ p.maint_roll.contains kv.1) with
  | some kv =>
    exact focus_outs_no_autoscale p.config kv.2 (getStates p) now
  | none =>
    cases p.workers with
    | nil => rfl
    | cons kv rest =>
      exact focus_outs_no_autoscale p.config kv.2 (getStates p) now

/-- The auto-scale phase: at most one action, and the add action happens
exactly on the code's three-part condition over the bookkeeping states. -/
theorem tickScale_autoscale (p1 : WorkerPool) (s : TickStates)
    (sp : SpawnOutcome) (now : Nat) :
    autoscaleCount (tickScale p1 s sp now).2 ≤ 1 ∧
    (Output.emitEvent "autoscale_add" ∈ (tickScale p1 s sp now).2 ↔
      (numBusyAdj p1 ≥ s.stStartup + s.stActive ∧
       s.stStartup < p1.config.max_concurrent_launches ∧
       totalChildren p1 - s.stShutdown < p1.config.max_children)) := by
  unfold tickScale
  dsimp only
  by_cases h1 : numBusyAdj p1 ≥ s.stStartup + s.stActive ∧
      s.stStartup < p1.config.max_concurrent_launches ∧
      totalChildren p1 - s.stShutdown < p1.config.max_children
  · rw [if_pos h1]
    dsimp only
    refine ⟨?_, fun _ => h1, ?_⟩
    · rw [autoscaleCount_append, addWorker_outs]
      decide
    · intro _
      exact List.mem_append_right _ (by decide)
  · rw [if_neg h1]
    by_cases h2 : numBusyAdj p1 < s.stActive - 1 ∧ s.stActive > 1 ∧
        totalChildren p1 > p1.config.min_children
    · rw [if_pos h2]
      cases hik : idleKids p1 with
      | nil =>
        dsimp only
        exact ⟨by decide, fun hm => absurd hm (by decide), fun hc => absurd hc h1⟩
      | cons pid rest =>
        dsimp only
        cases hlk : alookup p1.workers pid with
        | none =>
          dsimp only
          exact ⟨by decide, fun hm => absurd hm (by decide), fun hc => absurd hc h1⟩
        | some w =>
          dsimp only
          constructor
          · rw [autoscaleCount_append, doShutdown_outs]
            decide
          · constructor
            · intro hm
              rcases List.mem_append.1 hm with hm | hm
              · exact absurd hm
                  (no_autoscale_not_mem _ _ (by decide) (doShutdown_outs w))
              · exact absurd hm (by decide)
            · intro hc
              exact absurd hc h1
    · rw [if_neg h2]
      dsimp only
      exact ⟨by decide, fun hm => absurd hm (by decide), fun hc => absurd hc h1⟩

/-- The add condition of the auto-scale phase, as worker counts of the
pool it inspects: headroom-adjusted busy count at least the number of
startup+active children, startup count below `max_concurrent_launches`,
and non-shutdown children below `max_children`. -/
def addCondition (q : WorkerPool) : Prop :=
  numBusyAdj q ≥ countState q.workers WState.startup + countState q.workers WState.active ∧
  countState q.workers WState.startup < q.config.max_concurrent_launches ∧
  totalChildren q - countState q.workers WState.shutdown < q.config.max_children

instance (q : WorkerPool) : Decidable (addCondition q) := by
  unfold addCondition
  infer_instance

/-- C7: on every `tick` at most one auto-scale action (add or remove)
occurs, and a worker is added exactly when, on the pool as left by the
focus phase, `num_busy_adj` (busy actives adjusted by
`child_headroom_pct`, clamped up to `min_children - 1`) is at least the
startup+active count, the startup count is below
`max_concurrent_launches`, and the child count excluding shutdown is
below `max_children`.  Hypotheses: distinct pids and every active proxy
has its streams (both always true of pools built by the module). -/
theorem tick_autoscale (p : WorkerPool) (now : Nat) (sp : SpawnOutcome)
    (hnd : (p.workers.map Prod.fst).Nodup)
    (hstr : ∀ kv ∈ p.workers, kv.2.state = WState.active → kv.2.hasStream = true) :
    autoscaleCount (tick p now sp).2 ≤ 1 ∧
    (Output.emitEvent "autoscale_add" ∈ (tick p now sp).2 ↔
      addCondition (tickFocus p now).1) := by
  have hf := tickFocus_outs_no_autoscale p now
  have hs := tickFocus_states p now hnd hstr
  have hsc := tickScale_autoscale (tickFocus p now).1 (tickFocus p now).2.1 sp now
  unfold tick
  dsimp only
  constructor
  · rw [autoscaleCount_append, hf]
    omega
  · rw [List.mem_append]
    have hnotf : Output.emitEvent "autoscale_add" ∉ (tickFocus p now).2.2 :=
      no_autoscale_not_mem _ _ (by decide) hf
    constructor
    · intro hm
      rcases hm with hm | hm
      · exact absurd hm hnotf
      · have hc := hsc.2.1 hm
        rw [hs] at hc
        exact hc
    · intro hc
      refine Or.inr (hsc.2.2 ?_)
      rw [hs]
      exact hc

/-- Witness for `tick_autoscale` on a concrete one-worker pool. -/
theorem tick_autoscale_witness :
    autoscaleCount (tick idlePool 0 (SpawnOutcome.ok 77)).2 ≤ 1 ∧
    (Output.emitEvent "autoscale_add" ∈ (tick idlePool 0 (SpawnOutcome.ok 77)).2 ↔
      addCondition (tickFocus idlePool 0).1) :=
  tick_autoscale idlePool 0 (SpawnOutcome.ok 77) (by decide) (by decide)

/-! ### Child-side request handling (worker.js) -/

/-- A command frame delivered to the worker child: web requests arrive with
`cmd = 'request'`, custom requests with `cmd = 'custom'`; both are routed to
`handleRequest` (worker.js receiveCommand lines 72-75). -/
structure ChildReq where
  isCustom : Bool
deriving DecidableEq, Repr

/-- The per-request state visible in the worker child: the child's active
counter, the closure variables `timer` / `timed_out` and `req.aborted`. -/
structure ChildState where
  num_active_requests : Nat
  timer : Bool
  timed_out : Bool
  aborted : Bool
deriving DecidableEq, Repr

inductive ChildOut
  | responseFrame
  | logTimeout
deriving DecidableEq, Repr

/-- worker.js `handleRequest` entry (lines 170-239): increments the active
counter and arms the per-request timer only when `req.cmd == 'request'`
and `request_timeout_sec` is nonzero — a `custom` command never arms it. -/
def childHandleRequest (request_timeout_sec : Nat) (req : ChildReq)
    (st : ChildState) : ChildState :=
  { st with
      num_active_requests := st.num_active_requests + 1,
      timer := req.isCustom = false ∧ request_timeout_sec > 0,
      timed_out := false,
      aborted := false }

/-- The timer callback (worker.js lines 217-239): marks the request timed
out and aborted, logs the timeout and decrements the active counter — no
response frame is written to the stdio pipe. -/
def childTimeoutFire (st : ChildState) : ChildState × List ChildOut :=
  if st.timer then
    ({ st with
        timer := false, timed_out := true, aborted := true,
        num_active_requests := st.num_active_requests - 1 },
     [ChildOut.logTimeout])
  else (st, [])

/-- `handleResponse` (worker.js lines 279-283) with `finishResponse`
(lines 242-258), for a non-SSE request: a handler completion after the
timeout fired returns immediately; otherwise the timer is cleared, the
response frame is written and the counter decremented. -/
def childHandleResponse (st : ChildState) : ChildState × List ChildOut :=
  if st.timed_out then (st, [])
  else
    ({ st with
        timer := false,
        num_active_requests := st.num_active_requests - 1 },
     [ChildOut.responseFrame])

def st0 : ChildState :=
  { num_active_requests := 0, timer := false, timed_out := false,
    aborted := false }

/-- C8 counterexample: a `custom` request handled with
`request_timeout_sec = 30` arms no child-side deadline timer
(worker.js line 217 tests `req.cmd == 'request'`), contradicting the
claim that every handled request — 'request' or 'custom' — is armed. -/
theorem custom_request_no_child_deadline :
    (childHandleRequest 30 { isCustom := true } st0).timer = false := by
  decide

/-- C8 (amended): for a web (`request`) command with positive
`request_timeout_sec` the deadline is armed; when it expires the request is
marked aborted, the active counter is decremented exactly once (back to its
value before the request) and no response frame is sent; a handler
completion arriving after expiry changes nothing and sends nothing. -/
theorem child_timeout_once (t : Nat) (st : ChildState) (ht : 0 < t) :
    (childHandleRequest t { isCustom := false } st).timer = true ∧
    ((childTimeoutFire (childHandleRequest t { isCustom := false } st)).1.num_active_requests
        = st.num_active_requests ∧
     (childTimeoutFire (childHandleRequest t { isCustom := false } st)).1.aborted = true ∧
     ChildOut.responseFrame ∉
       (childTimeoutFire (childHandleRequest t { isCustom := false } st)).2) ∧
    ((childHandleResponse
        (childTimeoutFire (childHandleRequest t { isCustom := false } st)).1).1
        = (childTimeoutFire (childHandleRequest t { isCustom := false } st)).1 ∧
     (childHandleResponse
        (childTimeoutFire (childHandleRequest t { isCustom := false } st)).1).2 = []) := by
  have harm : (childHandleRequest t { isCustom := false } st).timer = true := by
    simp [childHandleRequest, ht]
  refine ⟨harm, ?_, ?_⟩
  · unfold childTimeoutFire
    rw [if_pos harm]
    dsimp only
    refine ⟨?_, rfl, by decide⟩
    dsimp only [childHandleRequest]
    omega
  · have hto : (childTimeoutFire (childHandleRequest t { isCustom := false } st)).1.timed_out = true := by
      unfold childTimeoutFire
      rw [if_pos harm]
    unfold childHandleResponse
    rw [if_pos hto]
    exact ⟨rfl, rfl⟩

/-- Witness for `child_timeout_once` at `request_timeout_sec = 30` from the
idle child state. -/
theorem child_timeout_once_witness :
    (0:Nat) < 30 ∧
    (childHandleRequest 30 { isCustom := false } st0).timer = true :=
  ⟨by decide, (child_timeout_once 30 st0 (by decide)).1⟩

/-! ### Claim C10: synchronous spawn failure -/

theorem alookup_cons {α β : Type} [DecidableEq α] (k1 k0 : α) (v1 : β)
    (t : List (α × β)) :
    alookup ((k1, v1) :: t) k0 = if k1 = k0 then some v1 else alookup t k0 :=
  rfl

theorem alookup_aset_ne {α β : Type} [DecidableEq α]
    (l : List (α × β)) (k k0 : α) (v : β) (h : k ≠ k0) :
    alookup (aset l k v) k0 = alookup l k0 := by
  induction l with
  | nil => rw [aset, alookup_cons, if_neg h]
  | cons hd t ih =>
    obtain ⟨k1, v1⟩ := hd
    rw [aset]
    by_cases h1 : k1 = k
    · rw [if_pos h1, alookup_cons, alookup_cons, if_neg h,
        if_neg (by rw [h1]; exact h)]
    · rw [if_neg h1, alookup_cons, alookup_cons]
      by_cases h2 : k1 = k0
      · rw [if_pos h2, if_pos h2]
      · rw [if_neg h2, if_neg h2, ih]

theorem alookup_aerase_ne {α β : Type} [DecidableEq α]
    (l : List (α × β)) (k k0 : α) (h : k ≠ k0) :
    alookup (aerase l k) k0 = alookup l k0 := by
  induction l with
  | nil => rfl
  | cons hd t ih =>
    obtain ⟨k1, v1⟩ := hd
    rw [aerase]
    by_cases h1 : k1 = k
    · rw [if_pos h1, alookup_cons, if_neg (by rw [h1]; exact h)]
    · rw [if_neg h1, alookup_cons, alookup_cons]
      by_cases h2 : k1 = k0
      · rw [if_pos h2, if_pos h2]
      · rw [if_neg h2, if_neg h2, ih]

theorem alookup_map_snd {α β γ : Type} [DecidableEq α] (l : List (α × β))
    (g : β → γ) (k : α) :
    alookup (l.map (fun kv => (kv.1, g kv.2))) k = (alookup l k).map g := by
  induction l with
  | nil => rfl
  | cons hd t ih =>
    obtain ⟨k0, v0⟩ := hd
    by_cases h : k0 = k <;> simp [alookup, h, ih]

theorem alookup_map_maint (l : List (Nat × WorkerProxy)) (k : Nat) :
    alookup (l.map (fun kv => (kv.1, { kv.2 with request_maint := true }))) k
      = (alookup l k).map (fun v => { v with request_maint := true }) := by
  induction l with
  | nil => rfl
  | cons hd t ih =>
    obtain ⟨k0, v0⟩ := hd
    by_cases h : k0 = k <;> simp [alookup, h, ih]

theorem alookup_map_restart (l : List (Nat × WorkerProxy)) (k : Nat) :
    alookup (l.map (fun kv => (kv.1, { kv.2 with request_restart := true }))) k
      = (alookup l k).map (fun v => { v with request_restart := true }) := by
  induction l with
  | nil => rfl
  | cons hd t ih =>
    obtain ⟨k0, v0⟩ := hd
    by_cases h : k0 = k <;> simp [alookup, h, ih]

/-- `WorkerProxy.shutdown` is a no-op when the encode stream was never
created (worker_proxy.js line 531 `if (this.encodeStream) { ... }`). -/
theorem doShutdown_noStream (w : WorkerProxy) (hhs : w.hasStream = false) :
    WorkerProxy.doShutdown w = (w, []) := by
  unfold WorkerProxy.doShutdown
  rw [if_neg (by simp [hhs])]

theorem hcr_hasStream (w : WorkerProxy) (f : CFrame) :
    (handleChildResponse w f).w.hasStream = w.hasStream := by
  cases f
  case response d =>
    simp only [handleChildResponse]
    cases alookup w.requests d.id with
    | none => rfl
    | some req => cases d.rtype <;> rfl
  all_goals rfl

theorem hct_hasStream (w : WorkerProxy) (id : String) :
    (handleChildTimeout w id).w.hasStream = w.hasStream := by
  simp only [handleChildTimeout]
  cases alookup w.requests id with
  | none => rfl
  | some req =>
    simp only
    rw [hcr_hasStream]

/-- Events that originate in the child process itself: stdio frames, the
process `exit` / `error` events, and the stat results of a child `file`
response.  A proxy whose spawn threw has no child process and no streams
(worker_proxy.js `startup` returns from the catch before attaching any
handler), so none of these are ever delivered for it. -/
def fromChildProcess : ProxyEvent → Prop
  | ProxyEvent.frame _ => True
  | ProxyEvent.childExit => True
  | ProxyEvent.childErr => True
  | ProxyEvent.statDone _ _ => True
  | _ => False

/-- A successful `cp.spawn` yields a real (nonzero) OS pid. -/
def spawnRealPid : SpawnOutcome → Prop
  | SpawnOutcome.ok pid => pid ≠ 0
  | SpawnOutcome.fail => True

/-- Pool events that can actually occur in a pool holding a spawn-failure
proxy at pid 0: child-originated events never target it, and real spawns
have nonzero pids. -/
def deadSafe : PoolEvent → Prop
  | PoolEvent.evWorker pid e => pid = 0 → ¬ fromChildProcess e
  | PoolEvent.evTick _ sp => spawnRealPid sp
  | PoolEvent.evAddWorker sp _ => spawnRealPid sp
  | _ => True

/-- The pool holds a spawn-failure orphan: an entry under pid 0, still in
`startup`, with no streams. -/
def deadEntry (q : WorkerPool) : Prop :=
  ∃ w0, alookup q.workers 0 = some w0 ∧ w0.state = WState.startup ∧
    w0.hasStream = false

/-- Any proxy event that does not originate in the child process leaves a
stream-less `startup` proxy in `startup` with no streams, and never asks the
pool to remove it. -/
theorem proxyStep_dead (cfg : PoolConfig) (w : WorkerProxy) (e : ProxyEvent)
    (hst : w.state = WState.startup) (hhs : w.hasStream = false)
    (he : ¬ fromChildProcess e) :
    (proxyStep cfg w e).w.state = WState.startup ∧
    (proxyStep cfg w e).w.hasStream = false ∧
    (proxyStep cfg w e).removeFromPool = false := by
  cases e with
  | frame f => exact absurd trivial he
  | childExit => exact absurd trivial he
  | childErr => exact absurd trivial he
  | statDone d ok => exact absurd trivial he
  | reqTimeout id =>
    simp only [proxyStep]
    split
    · dsimp only [HCROut.toStep]
      exact ⟨by rw [hct_state]; exact hst, by rw [hct_hasStream]; exact hhs, rfl⟩
    · exact ⟨hst, hhs, rfl⟩
  | maintTimerFire =>
    simp only [proxyStep]
    split
    · rw [doShutdown_noStream w hhs]
      exact ⟨hst, hhs, rfl⟩
    · exact ⟨hst, hhs, rfl⟩
  | killTimerFire =>
    simp only [proxyStep]
    split <;> exact ⟨hst, hhs, rfl⟩
  | startupTimerFire =>
    simp only [proxyStep]
    split <;> exact ⟨hst, hhs, rfl⟩
  | shutdownCmd =>
    simp only [proxyStep]
    rw [doShutdown_noStream w hhs]
    exact ⟨hst, hhs, rfl⟩
  | maintCmd =>
    simp only [proxyStep]
    rw [if_neg (by simp [hst])]
    exact ⟨hst, hhs, rfl⟩
  | delegateCmd args newId =>
    exact ⟨hst, hhs, rfl⟩

theorem maintDecision_nonactive (cfg : PoolConfig) (w : WorkerProxy)
    (now : Nat) (hw : w.state ≠ WState.active) :
    maintDecision cfg w now = (w, false) := by
  unfold maintDecision
  dsimp only
  have h1 : ¬(w.state = WState.active ∧ cfg.auto_maint = true) :=
    fun hc => hw hc.1
  rw [if_neg h1]
  dsimp only
  have h2 : ¬(w.state = WState.active ∧ w.request_maint = true) :=
    fun hc => hw hc.1
  rw [if_neg h2]

theorem tickMaintPhase_nonactive (cfg : PoolConfig) (w : WorkerProxy)
    (s : TickStates) (now : Nat) (hw : w.state ≠ WState.active) :
    tickMaintPhase cfg w s now = { w := w, s := s, outs := [] } := by
  unfold tickMaintPhase
  rw [maintDecision_nonactive cfg w now hw]
  dsimp only
  split <;> rfl

theorem tickRestartPhase_nonactive (cfg : PoolConfig) (mp : FocusOut)
    (hw : mp.w.state ≠ WState.active) : tickRestartPhase cfg mp = mp := by
  unfold tickRestartPhase
  dsimp only
  split
  · have h1 : ¬(mp.w.state = WState.active ∧ mp.w.max_requests_per_child > 0 ∧
        mp.s.stActive > 1 ∧
        mp.w.num_requests_served ≥ mp.w.max_requests_per_child) :=
      fun hc => hw hc.1
    rw [if_neg h1]
    have h2 : ¬(mp.w.state = WState.active ∧ mp.w.request_restart = true ∧
        mp.s.stActive > 1) := fun hc => hw hc.1
    rw [if_neg h2]
  · rfl

theorem tickFocusActions_nonactive (cfg : PoolConfig) (w : WorkerProxy)
    (s : TickStates) (now : Nat) (hw : w.state ≠ WState.active) :
    tickFocusActions cfg w s now = { w := w, s := s, outs := [] } := by
  unfold tickFocusActions
  rw [tickMaintPhase_nonactive cfg w s now hw]
  exact tickRestartPhase_nonactive cfg _ hw

/-- The focus phase of `tick` never touches the orphan: its pending
actions all require the `active` state. -/
theorem tickFocus_dead (q : WorkerPool) (now : Nat)
    (hnd : (q.workers.map Prod.fst).Nodup)
    (w0 : WorkerProxy) (hlk : alookup q.workers 0 = some w0)
    (hst : w0.state = WState.startup) (hhs : w0.hasStream = false) :
    alookup (tickFocus q now).1.workers 0 = some w0 ∧
    ((tickFocus q now).1.workers.map Prod.fst).Nodup := by
  unfold tickFocus
  cases hfind : q.workers.find? (fun kv => ¬ q.maint_roll.contains kv.1) with
  | some kv =>
    dsimp only
    have hkvmem : kv ∈ q.workers := List.mem_of_find?_eq_some hfind
    have hlk2 : alookup q.workers kv.1 = some kv.2 :=
      mem_nodup_alookup _ _ _ hnd (by simpa using hkvmem)
    have hkeys := keys_aset_present q.workers kv.1 kv.2
      (tickFocusActions q.config kv.2 (getStates q) now).w hlk2
    refine ⟨?_, by rw [hkeys]; exact hnd⟩
    by_cases hk : kv.1 = 0
    · have hw0 : kv.2 = w0 := by
        rw [hk] at hlk2
        rw [hlk2] at hlk
        exact Option.some.inj hlk
      have hfa := tickFocusActions_nonactive q.config kv.2 (getStates q) now
        (by rw [hw0, hst]; decide)
      rw [hfa]
      dsimp only
      rw [hk, hw0]
      exact alookup_aset_self _ _ _
    · rw [alookup_aset_ne _ _ _ _ hk]
      exact hlk
  | none =>
    cases hw : q.workers with
    | nil =>
      dsimp only
      rw [hw] at hlk
      exact absurd hlk (by simp [alookup])
    | cons kv rest =>
      dsimp only
      rw [hw] at hnd hlk
      have hlk2 : alookup (kv :: rest) kv.1 = some kv.2 := by
        rw [alookup, if_pos rfl]
      have hkeys := keys_aset_present (kv :: rest) kv.1 kv.2
        (tickFocusActions q.config kv.2 (getStates q) now).w hlk2
      refine ⟨?_, by rw [hkeys]; exact hnd⟩
      by_cases hk : kv.1 = 0
      · have hw0 : kv.2 = w0 := by
          rw [hk] at hlk2
          rw [hlk2] at hlk
          exact Option.some.inj hlk
        have hfa := tickFocusActions_nonactive q.config kv.2 (getStates q) now
          (by rw [hw0, hst]; decide)
        rw [hfa]
        dsimp only
        rw [hk, hw0]
        exact alookup_aset_self _ _ _
      · rw [alookup_aset_ne _ _ _ _ hk]
        exact hlk

/-- The auto-scale phase of `tick` never removes the orphan: removal picks
an idle `active` worker, adding writes under a different (real or 0) pid. -/
theorem tickScale_dead (p1 : WorkerPool) (s : TickStates) (sp : SpawnOutcome)
    (now : Nat) (hnd : (p1.workers.map Prod.fst).Nodup)
    (hsp : spawnRealPid sp)
    (w0 : WorkerProxy) (hlk : alookup p1.workers 0 = some w0)
    (hst : w0.state = WState.startup) (hhs : w0.hasStream = false) :
    deadEntry (tickScale p1 s sp now).1 := by
  unfold tickScale
  dsimp only
  by_cases h1 : numBusyAdj p1 ≥ s.stStartup + s.stActive ∧
      s.stStartup < p1.config.max_concurrent_launches ∧
      totalChildren p1 - s.stShutdown < p1.config.max_children
  · rw [if_pos h1]
    cases sp with
    | ok pid =>
      refine ⟨w0, ?_, hst, hhs⟩
      dsimp only [addWorker, newWorkerProxy]
      rw [alookup_aset_ne _ _ _ _ hsp]
      exact hlk
    | fail =>
      refine ⟨newWorkerProxy p1.config SpawnOutcome.fail now, ?_, rfl, rfl⟩
      dsimp only [addWorker]
      exact alookup_aset_self _ _ _
  · rw [if_neg h1]
    by_cases h2 : numBusyAdj p1 < s.stActive - 1 ∧ s.stActive > 1 ∧
        totalChildren p1 > p1.config.min_children
    · rw [if_pos h2]
      cases hik : idleKids p1 with
      | nil => exact ⟨w0, hlk, hst, hhs⟩
      | cons pid rest =>
        dsimp only
        cases hal : alookup p1.workers pid with
        | none => exact ⟨w0, hlk, hst, hhs⟩
        | some w =>
          dsimp only
          have hpidmem : pid ∈ idleKids p1 := by
            rw [hik]
            exact List.mem_cons_self _ _
          unfold idleKids at hpidmem
          obtain ⟨kv', hkv'mem, hkv'fst⟩ := List.mem_map.1 hpidmem
          have hkv'f := List.mem_filter.1 hkv'mem
          have hkne : pid ≠ 0 := by
            intro h0
            have hmem2 : (0, kv'.2) ∈ p1.workers := by
              have : kv' = (0, kv'.2) := by
                rw [← h0, ← hkv'fst]
              rw [← this]
              exact hkv'f.1
            have := mem_nodup_alookup p1.workers 0 kv'.2 hnd hmem2
            rw [hlk] at this
            have hw0 : kv'.2 = w0 := Option.some.inj this.symm
            have hact : kv'.2.state = WState.active := by
              have := hkv'f.2
              simp at this
              exact this.1
            rw [hw0, hst] at hact
            exact absurd hact (by decide)
          refine ⟨w0, ?_, hst, hhs⟩
          rw [alookup_aset_ne _ _ _ _ hkne]
          exact hlk
    · rw [if_neg h2]
      exact ⟨w0, hlk, hst, hhs⟩

/-- C10: when the synchronous `cp.spawn` inside `WorkerProxy.startup`
throws, `addWorker` reports the failure to its callback yet still inserts
the proxy into the worker map under the prototype pid 0, in state
`startup` and without streams; and no subsequent pool operation that can
actually occur (no child process exists, so no frame / exit / error / stat
event ever targets pid 0, and real spawns have nonzero pids) removes that
entry or moves it out of `startup`. -/
theorem spawn_failure_orphan_entry (p : WorkerPool) (now : Nat)
    (q : WorkerPool) (ev : PoolEvent)
    (hq : deadEntry q) (hqnd : (q.workers.map Prod.fst).Nodup)
    (hev : deadSafe ev) :
    Output.startupCb true ∈ (addWorker p SpawnOutcome.fail now).2.2 ∧
    (addWorker p SpawnOutcome.fail now).2.1 = 0 ∧
    deadEntry (addWorker p SpawnOutcome.fail now).1 ∧
    deadEntry (poolStep q ev).1 := by
  obtain ⟨w0, hlk, hst, hhs⟩ := hq
  refine ⟨by simp [addWorker], rfl,
    ⟨newWorkerProxy p.config SpawnOutcome.fail now,
      alookup_aset_self _ _ _, rfl, rfl⟩, ?_⟩
  cases ev with
  | evDelegate args newId pick =>
    simp only [poolStep, Pool.delegateRequest]
    split
    · exact ⟨w0, hlk, hst, hhs⟩
    · cases hfew : chosenFew q.workers (minConcurrentFold q.workers 9999999) with
      | nil => exact ⟨w0, hlk, hst, hhs⟩
      | cons kv0 rest =>
        simp only
        have hlt : pick % (kv0 :: rest).length < (kv0 :: rest).length :=
          Nat.mod_lt _ (by simp)
        have hget : (kv0 :: rest).getD (pick % (kv0 :: rest).length) (0, {}) ∈ kv0 :: rest := by
          rw [List.getD_eq_get _ _ hlt]
          exact List.get_mem _ _ _
        rw [← hfew] at hget
        have hmm := chosenFew_mem q.workers _ _ hget
        have hkne : ((chosenFew q.workers (minConcurrentFold q.workers 9999999)).getD
            (pick % (chosenFew q.workers (minConcurrentFold q.workers 9999999)).length)
            (0, {})).1 ≠ 0 := by
          intro h0
          have hax := mem_nodup_alookup q.workers
            ((chosenFew q.workers (minConcurrentFold q.workers 9999999)).getD
              (pick % (chosenFew q.workers (minConcurrentFold q.workers 9999999)).length)
              (0, {})).1
            ((chosenFew q.workers (minConcurrentFold q.workers 9999999)).getD
              (pick % (chosenFew q.workers (minConcurrentFold q.workers 9999999)).length)
              (0, {})).2 hqnd hmm.1
          rw [h0, hlk] at hax
          have hw0 := Option.some.inj hax
          have hact := hmm.2.1
          rw [← hw0, hst] at hact
          exact absurd hact (by decide)
        rw [hfew] at hkne
        refine ⟨w0, ?_, hst, hhs⟩
        rw [alookup_aset_ne _ _ _ _ hkne]
        exact hlk
  | evWorker pid e =>
    simp only [poolStep]
    cases hal : alookup q.workers pid with
    | none => exact ⟨w0, hlk, hst, hhs⟩
    | some w =>
      simp only [applyWorkerStep]
      by_cases hpid : pid = 0
      · subst hpid
        have hww : w = w0 := by
          rw [hal] at hlk
          exact Option.some.inj hlk
        have hd := proxyStep_dead q.config w e (by rw [hww]; exact hst)
          (by rw [hww]; exact hhs) (hev rfl)
        rw [if_neg (by rw [hd.2.2]; exact Bool.false_ne_true)]
        exact ⟨(proxyStep q.config w e).w, alookup_aset_self _ _ _, hd.1, hd.2.1⟩
      · split
        · refine ⟨w0, ?_, hst, hhs⟩
          rw [alookup_aerase_ne _ _ _ hpid, alookup_aset_ne _ _ _ _ hpid]
          exact hlk
        · refine ⟨w0, ?_, hst, hhs⟩
          rw [alookup_aset_ne _ _ _ _ hpid]
          exact hlk
  | evTick tnow sp =>
    simp only [poolStep, tick]
    obtain ⟨hlk2, hnd2⟩ := tickFocus_dead q tnow hqnd w0 hlk hst hhs
    exact tickScale_dead _ _ sp tnow hnd2 hev w0 hlk2 hst hhs
  | evAddWorker sp anow =>
    simp only [poolStep]
    cases sp with
    | ok pid =>
      refine ⟨w0, ?_, hst, hhs⟩
      dsimp only [addWorker, newWorkerProxy]
      rw [alookup_aset_ne _ _ _ _ hev]
      exact hlk
    | fail =>
      refine ⟨newWorkerProxy q.config SpawnOutcome.fail anow, ?_, rfl, rfl⟩
      dsimp only [addWorker]
      exact alookup_aset_self _ _ _
  | evShutdownAll =>
    simp only [poolStep, shutdownAllWorkers]
    refine ⟨w0, ?_, hst, hhs⟩
    dsimp only
    rw [alookup_map_snd q.workers (fun v => (WorkerProxy.doShutdown v).1) 0, hlk]
    simp [doShutdown_noStream w0 hhs]
  | evRequestMaint =>
    simp only [poolStep]
    refine ⟨{ w0 with request_maint := true }, ?_, hst, hhs⟩
    dsimp only
    rw [alookup_map_maint q.workers 0, hlk]
    rfl
  | evRequestRestart =>
    simp only [poolStep]
    refine ⟨{ w0 with request_restart := true }, ?_, hst, hhs⟩
    dsimp only
    rw [alookup_map_restart q.workers 0, hlk]
    rfl
  | evSendMessage =>
    exact ⟨w0, hlk, hst, hhs⟩

instance (e : ProxyEvent) : Decidable (fromChildProcess e) := by
  cases e <;> simp only [fromChildProcess] <;> infer_instance

instance (sp : SpawnOutcome) : Decidable (spawnRealPid sp) := by
  cases sp <;> simp only [spawnRealPid] <;> infer_instance

instance (ev : PoolEvent) : Decidable (deadSafe ev) := by
  cases ev <;> simp only [deadSafe] <;> infer_instance

/-- Witness for `spawn_failure_orphan_entry`: a failed spawn into the
one-worker pool, followed by a tick that could auto-scale. -/
theorem spawn_failure_orphan_entry_witness :
    Output.startupCb true ∈ (addWorker idlePool SpawnOutcome.fail 0).2.2 ∧
    (addWorker idlePool SpawnOutcome.fail 0).2.1 = 0 ∧
    deadEntry (addWorker idlePool SpawnOutcome.fail 0).1 ∧
    deadEntry (poolStep (addWorker idlePool SpawnOutcome.fail 0).1
      (PoolEvent.evTick 3 (SpawnOutcome.ok 77))).1 :=
  spawn_failure_orphan_entry idlePool 0 (addWorker idlePool SpawnOutcome.fail 0).1
    (PoolEvent.evTick 3 (SpawnOutcome.ok 77))
    ⟨newWorkerProxy idlePool.config SpawnOutcome.fail 0, by decide, by decide, by decide⟩
    (by decide) (by decide)

end PixlPool
